import Mathlib

/-!
Verification of the zwibserve collaboration server (shallow embedding).

Byte strings are modelled as `List Nat` (each element a byte value).  Machine
integers are modelled as `Nat` (Go's unsigned types) or `Int` (Go's `int`),
with truncation written out explicitly (`% 256`, `% 2 ^ (8 * w)`) at the
points where the Go code converts.

The wire codec in the source (`encode` / `_decode` in the repository) is a
reflection-driven walk over struct fields.  Here each message struct gets its
own `encodeX` / `decodeX` pair that performs exactly the byte operations the
generic walker performs on that struct: unsigned fields are written big-endian
with `writeUint` and read back with `readUint`; a `string` field is read using
the *last decoded unsigned value* as its length (this is what the generic
decoder's `value` variable does); a `[]byte` field named `Data` consumes the
rest of the message; the `Keys` field of `keyInformationMessage` repeats its
element struct until the end of the message.  The position-plus-bounds-check
access of the Go decoder (`pos+size > len(m)` then read at `pos`) is rendered
as consuming a prefix of the remaining byte list (`readUintL` / `readBytesL`).
-/

namespace Zwibserve

/-! ### Byte-level primitives, from the repository's readUint / writeUint -/

/-- Big-endian byte list of `v` on `size` bytes, each byte reduced `% 256`
exactly as Go's `byte(v >> (size*8))` conversion does. -/
def uintBytes (v : Nat) : Nat → List Nat
  | 0 => []
  | s + 1 => v / 2 ^ (8 * s) % 256 :: uintBytes v s

/-- `writeUint` from the source: appends the `size` big-endian bytes of `v`
to the message being built. -/
def writeUint (m : List Nat) (v : Nat) (size : Nat) : List Nat :=
  m ++ uintBytes v size

/-- `readUint`'s accumulation loop: `ret = ret*256 + m[at]`, `size` times. -/
def readUintVal (bytes : List Nat) : Nat :=
  bytes.foldl (fun r b => r * 256 + b) 0

/-- Reading an unsigned field of `size` bytes off the front of the remaining
message, with the decoder's `pos+size > len(m)` short-message check. -/
def readUintL (m : List Nat) (size : Nat) : Option (Nat × List Nat) :=
  if size ≤ m.length then some (readUintVal (m.take size), m.drop size) else none

/-- Reading a string / byte-array field of `size` bytes off the front of the
remaining message, with the same short-message check. -/
def readBytesL (m : List Nat) (size : Nat) : Option (List Nat × List Nat) :=
  if size ≤ m.length then some (m.take size, m.drop size) else none

@[simp] theorem uintBytes_length (v s : Nat) : (uintBytes v s).length = s := by
  induction s with
  | zero => rfl
  | succ k ih => simp [uintBytes, ih]

theorem readUintVal_foldl (v s r : Nat) :
    (uintBytes v s).foldl (fun x b => x * 256 + b) r = r * 2 ^ (8 * s) + v % 2 ^ (8 * s) := by
  induction s generalizing r with
  | zero => simp [uintBytes, Nat.mod_one]
  | succ k ih =>
    simp only [uintBytes, List.foldl_cons, ih]
    have h1 : 2 ^ (8 * (k + 1)) = 2 ^ (8 * k) * 2 ^ 8 := by
      rw [← pow_add]; ring_nf
    have h2 : v % (2 ^ (8 * k) * 2 ^ 8) =
        v % 2 ^ (8 * k) + 2 ^ (8 * k) * (v / 2 ^ (8 * k) % 2 ^ 8) := Nat.mod_mul
    rw [h1, h2]
    ring_nf

theorem readUintVal_uintBytes (v s : Nat) :
    readUintVal (uintBytes v s) = v % 2 ^ (8 * s) := by
  simpa using readUintVal_foldl v s 0

/-- Reading back `size` bytes written by `writeUint` recovers `v % 2^(8*size)`
and leaves the rest of the message untouched. -/
theorem readUintL_append (v s : Nat) (rest : List Nat) :
    readUintL (uintBytes v s ++ rest) s = some (v % 2 ^ (8 * s), rest) := by
  have hlen : (uintBytes v s).length = s := uintBytes_length v s
  simp [readUintL, List.take_left' hlen, List.drop_left' hlen, readUintVal_uintBytes,
    List.length_append, hlen]

theorem readUintL_append_lt (v s : Nat) (rest : List Nat) (h : v < 2 ^ (8 * s)) :
    readUintL (uintBytes v s ++ rest) s = some (v, rest) := by
  rw [readUintL_append, Nat.mod_eq_of_lt h]

theorem readBytesL_append (xs rest : List Nat) :
    readBytesL (xs ++ rest) xs.length = some (xs, rest) := by
  simp [readBytesL, List.take_left, List.drop_left]

/-- Variant of `readUintL_append_lt` for the last field of a message. -/
theorem readUintL_eof_lt (v s : Nat) (h : v < 2 ^ (8 * s)) :
    readUintL (uintBytes v s) s = some (v, []) := by
  simpa using readUintL_append_lt v s [] h

/-- Variant of `readBytesL_append` for the last field of a message. -/
theorem readBytesL_eof (xs : List Nat) :
    readBytesL xs xs.length = some (xs, []) := by
  simpa using readBytesL_append xs []

/-! ### Message structs (field-for-field from the repository) -/

def initMessageType : Nat := 0x01
def appendV2MessageType : Nat := 0x02
def setKeyMessageType : Nat := 0x03
def broadcastMessageType : Nat := 0x04
def appendMessageType : Nat := 0x05
def errorMessageType : Nat := 0x80
def ackNackMessageType : Nat := 0x81
def keyInformationMessageType : Nat := 0x82
def continuationMessageType : Nat := 0xff

structure ackNackMessage where
  MessageType : Nat
  More : Nat
  Ack : Nat
  Offset : Nat
deriving Repr, DecidableEq

def encodeAckNack (m : List Nat) (s : ackNackMessage) : List Nat :=
  let m := writeUint m s.MessageType 1
  let m := writeUint m s.More 1
  let m := writeUint m s.Ack 2
  writeUint m s.Offset 8

def decodeAckNack (m : List Nat) : Option ackNackMessage :=
  match readUintL m 1 with
  | none => none
  | some (messageType, m) =>
  match readUintL m 1 with
  | none => none
  | some (more, m) =>
  match readUintL m 2 with
  | none => none
  | some (ack, m) =>
  match readUintL m 8 with
  | none => none
  | some (offset, _) =>
    some ⟨messageType, more, ack, offset⟩

theorem decodeAckNack_encode (s : ackNackMessage)
    (h1 : s.MessageType < 256) (h2 : s.More < 256)
    (h3 : s.Ack < 65536) (h4 : s.Offset < 18446744073709551616) :
    decodeAckNack (encodeAckNack [] s) = some s := by
  simp [encodeAckNack, writeUint, List.nil_append, List.append_assoc, decodeAckNack,
    readUintL_append_lt, readUintL_eof_lt, h1, h2, h3, h4]

structure initMessageV2 where
  MessageType : Nat
  More : Nat
  ProtocolVersion : Nat
  MaxMessageSize : Nat
  CreationMode : Nat
  Offset : Nat
  DocIDLength : Nat
  DocID : List Nat
  Data : List Nat
deriving Repr, DecidableEq

structure initMessage where
  MessageType : Nat
  More : Nat
  ProtocolVersion : Nat
  MaxMessageSize : Nat
  CreationMode : Nat
  Generation : Nat
  Offset : Nat
  DocIDLength : Nat
  DocID : List Nat
  Data : List Nat
deriving Repr, DecidableEq

structure appendMessageV2 where
  MessageType : Nat
  More : Nat
  Offset : Nat
  Data : List Nat
deriving Repr, DecidableEq

structure appendMessage where
  MessageType : Nat
  More : Nat
  Generation : Nat
  Offset : Nat
  Data : List Nat
deriving Repr, DecidableEq

structure setKeyMessage where
  MessageType : Nat
  More : Nat
  RequestID : Nat
  Lifetime : Nat
  OldVersion : Nat
  NewVersion : Nat
  NameLength : Nat
  Name : List Nat
  ValueLength : Nat
  Value : List Nat
deriving Repr, DecidableEq

structure errorMessage where
  MessageType : Nat
  More : Nat
  ErrorCode : Nat
  Description : List Nat
deriving Repr, DecidableEq

structure setKeyAckNackMessage where
  MessageType : Nat
  More : Nat
  Ack : Nat
  RequestID : Nat
deriving Repr, DecidableEq

structure keyInformation where
  Version : Nat
  NameLength : Nat
  Name : List Nat
  ValueLength : Nat
  Value : List Nat
deriving Repr, DecidableEq

structure keyInformationMessage where
  MessageType : Nat
  More : Nat
  Keys : List keyInformation
deriving Repr, DecidableEq

structure broadcastMessage where
  MessageType : Nat
  More : Nat
  DataLength : Nat
  Data : List Nat
deriving Repr, DecidableEq

/-! ### Per-message encode: the field walk the generic `encode` performs -/

def encodeInitV2 (m : List Nat) (s : initMessageV2) : List Nat :=
  let m := writeUint m s.MessageType 1
  let m := writeUint m s.More 1
  let m := writeUint m s.ProtocolVersion 2
  let m := writeUint m s.MaxMessageSize 4
  let m := writeUint m s.CreationMode 1
  let m := writeUint m s.Offset 8
  let m := writeUint m s.DocIDLength 1
  let m := m ++ s.DocID
  m ++ s.Data

def encodeInit (m : List Nat) (s : initMessage) : List Nat :=
  let m := writeUint m s.MessageType 1
  let m := writeUint m s.More 1
  let m := writeUint m s.ProtocolVersion 2
  let m := writeUint m s.MaxMessageSize 4
  let m := writeUint m s.CreationMode 1
  let m := writeUint m s.Generation 4
  let m := writeUint m s.Offset 8
  let m := writeUint m s.DocIDLength 4
  let m := m ++ s.DocID
  m ++ s.Data

def encodeAppendV2 (m : List Nat) (s : appendMessageV2) : List Nat :=
  let m := writeUint m s.MessageType 1
  let m := writeUint m s.More 1
  let m := writeUint m s.Offset 8
  m ++ s.Data

def encodeAppend (m : List Nat) (s : appendMessage) : List Nat :=
  let m := writeUint m s.MessageType 1
  let m := writeUint m s.More 1
  let m := writeUint m s.Generation 4
  let m := writeUint m s.Offset 8
  m ++ s.Data

def encodeSetKey (m : List Nat) (s : setKeyMessage) : List Nat :=
  let m := writeUint m s.MessageType 1
  let m := writeUint m s.More 1
  let m := writeUint m s.RequestID 2
  let m := writeUint m s.Lifetime 1
  let m := writeUint m s.OldVersion 4
  let m := writeUint m s.NewVersion 4
  let m := writeUint m s.NameLength 4
  let m := m ++ s.Name
  let m := writeUint m s.ValueLength 4
  m ++ s.Value

def encodeError (m : List Nat) (s : errorMessage) : List Nat :=
  let m := writeUint m s.MessageType 1
  let m := writeUint m s.More 1
  let m := writeUint m s.ErrorCode 2
  m ++ s.Description

def encodeSetKeyAckNack (m : List Nat) (s : setKeyAckNackMessage) : List Nat :=
  let m := writeUint m s.MessageType 1
  let m := writeUint m s.More 1
  let m := writeUint m s.Ack 2
  writeUint m s.RequestID 2

def encodeKeyInfo (m : List Nat) (k : keyInformation) : List Nat :=
  let m := writeUint m k.Version 4
  let m := writeUint m k.NameLength 4
  let m := m ++ k.Name
  let m := writeUint m k.ValueLength 4
  m ++ k.Value

def encodeKeyInformation (m : List Nat) (s : keyInformationMessage) : List Nat :=
  let m := writeUint m s.MessageType 1
  let m := writeUint m s.More 1
  s.Keys.foldl encodeKeyInfo m

def encodeBroadcast (m : List Nat) (s : broadcastMessage) : List Nat :=
  let m := writeUint m s.MessageType 1
  let m := writeUint m s.More 1
  let m := writeUint m s.DataLength 4
  m ++ s.Data

/-! ### Per-message decode: the field walk the generic `_decode` performs.

Each `string` field is read with the generic decoder's `value` variable,
i.e. the most recently decoded unsigned field, as its byte count; a `[]byte`
field named `Data` consumes the remainder of the message unconditionally. -/

def decodeInitV2 (m : List Nat) : Option initMessageV2 :=
  match readUintL m 1 with
  | none => none
  | some (messageType, m) =>
  match readUintL m 1 with
  | none => none
  | some (more, m) =>
  match readUintL m 2 with
  | none => none
  | some (protocolVersion, m) =>
  match readUintL m 4 with
  | none => none
  | some (maxMessageSize, m) =>
  match readUintL m 1 with
  | none => none
  | some (creationMode, m) =>
  match readUintL m 8 with
  | none => none
  | some (offset, m) =>
  match readUintL m 1 with
  | none => none
  | some (docIDLength, m) =>
  match readBytesL m docIDLength with
  | none => none
  | some (docID, m) =>
    some ⟨messageType, more, protocolVersion, maxMessageSize, creationMode, offset,
      docIDLength, docID, m⟩

def decodeInit (m : List Nat) : Option initMessage :=
  match readUintL m 1 with
  | none => none
  | some (messageType, m) =>
  match readUintL m 1 with
  | none => none
  | some (more, m) =>
  match readUintL m 2 with
  | none => none
  | some (protocolVersion, m) =>
  match readUintL m 4 with
  | none => none
  | some (maxMessageSize, m) =>
  match readUintL m 1 with
  | none => none
  | some (creationMode, m) =>
  match readUintL m 4 with
  | none => none
  | some (generation, m) =>
  match readUintL m 8 with
  | none => none
  | some (offset, m) =>
  match readUintL m 4 with
  | none => none
  | some (docIDLength, m) =>
  match readBytesL m docIDLength with
  | none => none
  | some (docID, m) =>
    some ⟨messageType, more, protocolVersion, maxMessageSize, creationMode, generation,
      offset, docIDLength, docID, m⟩

def decodeAppendV2 (m : List Nat) : Option appendMessageV2 :=
  match readUintL m 1 with
  | none => none
  | some (messageType, m) =>
  match readUintL m 1 with
  | none => none
  | some (more, m) =>
  match readUintL m 8 with
  | none => none
  | some (offset, m) =>
    some ⟨messageType, more, offset, m⟩

def decodeAppend (m : List Nat) : Option appendMessage :=
  match readUintL m 1 with
  | none => none
  | some (messageType, m) =>
  match readUintL m 1 with
  | none => none
  | some (more, m) =>
  match readUintL m 4 with
  | none => none
  | some (generation, m) =>
  match readUintL m 8 with
  | none => none
  | some (offset, m) =>
    some ⟨messageType, more, generation, offset, m⟩

def decodeSetKey (m : List Nat) : Option setKeyMessage :=
  match readUintL m 1 with
  | none => none
  | some (messageType, m) =>
  match readUintL m 1 with
  | none => none
  | some (more, m) =>
  match readUintL m 2 with
  | none => none
  | some (requestID, m) =>
  match readUintL m 1 with
  | none => none
  | some (lifetime, m) =>
  match readUintL m 4 with
  | none => none
  | some (oldVersion, m) =>
  match readUintL m 4 with
  | none => none
  | some (newVersion, m) =>
  match readUintL m 4 with
  | none => none
  | some (nameLength, m) =>
  match readBytesL m nameLength with
  | none => none
  | some (name, m) =>
  match readUintL m 4 with
  | none => none
  | some (valueLength, m) =>
  match readBytesL m valueLength with
  | none => none
  | some (value, _) =>
    some ⟨messageType, more, requestID, lifetime, oldVersion, newVersion,
      nameLength, name, valueLength, value⟩

/-- The generic decoder reads the `Description` string using the last decoded
unsigned field — which for `errorMessage` is `ErrorCode`, since the struct has
no description-length field. -/
def decodeError (m : List Nat) : Option errorMessage :=
  match readUintL m 1 with
  | none => none
  | some (messageType, m) =>
  match readUintL m 1 with
  | none => none
  | some (more, m) =>
  match readUintL m 2 with
  | none => none
  | some (errorCode, m) =>
  match readBytesL m errorCode with
  | none => none
  | some (description, _) =>
    some ⟨messageType, more, errorCode, description⟩

def decodeSetKeyAckNack (m : List Nat) : Option setKeyAckNackMessage :=
  match readUintL m 1 with
  | none => none
  | some (messageType, m) =>
  match readUintL m 1 with
  | none => none
  | some (more, m) =>
  match readUintL m 2 with
  | none => none
  | some (ack, m) =>
  match readUintL m 2 with
  | none => none
  | some (requestID, _) =>
    some ⟨messageType, more, ack, requestID⟩

def decodeKeyInfo (m : List Nat) : Option (keyInformation × List Nat) :=
  match readUintL m 4 with
  | none => none
  | some (version, m) =>
  match readUintL m 4 with
  | none => none
  | some (nameLength, m) =>
  match readBytesL m nameLength with
  | none => none
  | some (name, m) =>
  match readUintL m 4 with
  | none => none
  | some (valueLength, m) =>
  match readBytesL m valueLength with
  | none => none
  | some (value, m) => some (⟨version, nameLength, name, valueLength, value⟩, m)

/-- The repeat-to-end loop of the generic decoder (`repeatToEnd && pos < len(m)`).
The Go loop is unbounded; each iteration consumes at least one byte, so running
it with fuel equal to the total message length is exact. -/
def decodeKeyInfos (fuel : Nat) (m : List Nat) : Option (List keyInformation) :=
  if m.isEmpty then some []
  else
    match fuel with
    | 0 => none
    | fuel + 1 =>
      match decodeKeyInfo m with
      | none => none
      | some (k, m') =>
        match decodeKeyInfos fuel m' with
        | none => none
        | some ks => some (k :: ks)

def decodeKeyInformation (m : List Nat) : Option keyInformationMessage :=
  match readUintL m 1 with
  | none => none
  | some (messageType, m1) =>
  match readUintL m1 1 with
  | none => none
  | some (more, m2) =>
  match decodeKeyInfos m.length m2 with
  | none => none
  | some ks => some ⟨messageType, more, ks⟩

def decodeBroadcast (m : List Nat) : Option broadcastMessage :=
  match readUintL m 1 with
  | none => none
  | some (messageType, m) =>
  match readUintL m 1 with
  | none => none
  | some (more, m) =>
  match readUintL m 4 with
  | none => none
  | some (dataLength, m) =>
    some ⟨messageType, more, dataLength, m⟩

/-! ### Round-trip lemmas, message by message -/

theorem decodeInitV2_encode (s : initMessageV2)
    (h1 : s.MessageType < 256) (h2 : s.More < 256) (h3 : s.ProtocolVersion < 65536)
    (h4 : s.MaxMessageSize < 4294967296) (h5 : s.CreationMode < 256)
    (h6 : s.Offset < 18446744073709551616) (h7 : s.DocIDLength < 256)
    (hlen : s.DocIDLength = s.DocID.length) :
    decodeInitV2 (encodeInitV2 [] s) = some s := by
  have hb : readBytesL (s.DocID ++ s.Data) s.DocIDLength = some (s.DocID, s.Data) := by
    rw [hlen]; exact readBytesL_append _ _
  simp [encodeInitV2, writeUint, List.nil_append, List.append_assoc, decodeInitV2,
    readUintL_append_lt, hb, h1, h2, h3, h4, h5, h6, h7]

theorem decodeInit_encode (s : initMessage)
    (h1 : s.MessageType < 256) (h2 : s.More < 256) (h3 : s.ProtocolVersion < 65536)
    (h4 : s.MaxMessageSize < 4294967296) (h5 : s.CreationMode < 256)
    (h6 : s.Generation < 4294967296) (h7 : s.Offset < 18446744073709551616)
    (h8 : s.DocIDLength < 4294967296) (hlen : s.DocIDLength = s.DocID.length) :
    decodeInit (encodeInit [] s) = some s := by
  have hb : readBytesL (s.DocID ++ s.Data) s.DocIDLength = some (s.DocID, s.Data) := by
    rw [hlen]; exact readBytesL_append _ _
  simp [encodeInit, writeUint, List.nil_append, List.append_assoc, decodeInit,
    readUintL_append_lt, hb, h1, h2, h3, h4, h5, h6, h7, h8]

theorem decodeAppendV2_encode (s : appendMessageV2)
    (h1 : s.MessageType < 256) (h2 : s.More < 256)
    (h3 : s.Offset < 18446744073709551616) :
    decodeAppendV2 (encodeAppendV2 [] s) = some s := by
  simp [encodeAppendV2, writeUint, List.nil_append, List.append_assoc, decodeAppendV2,
    readUintL_append_lt, h1, h2, h3]

theorem decodeAppend_encode (s : appendMessage)
    (h1 : s.MessageType < 256) (h2 : s.More < 256) (h3 : s.Generation < 4294967296)
    (h4 : s.Offset < 18446744073709551616) :
    decodeAppend (encodeAppend [] s) = some s := by
  simp [encodeAppend, writeUint, List.nil_append, List.append_assoc, decodeAppend,
    readUintL_append_lt, h1, h2, h3, h4]

theorem decodeSetKey_encode (s : setKeyMessage)
    (h1 : s.MessageType < 256) (h2 : s.More < 256) (h3 : s.RequestID < 65536)
    (h4 : s.Lifetime < 256) (h5 : s.OldVersion < 4294967296)
    (h6 : s.NewVersion < 4294967296) (h7 : s.NameLength < 4294967296)
    (h8 : s.ValueLength < 4294967296)
    (hn : s.NameLength = s.Name.length) (hv : s.ValueLength = s.Value.length) :
    decodeSetKey (encodeSetKey [] s) = some s := by
  have hbn : readBytesL (s.Name ++ (uintBytes s.ValueLength 4 ++ s.Value)) s.NameLength =
      some (s.Name, uintBytes s.ValueLength 4 ++ s.Value) := by
    rw [hn]; exact readBytesL_append _ _
  have hbv : readBytesL s.Value s.ValueLength = some (s.Value, []) := by
    rw [hv]; exact readBytesL_eof _
  simp [encodeSetKey, writeUint, List.nil_append, List.append_assoc, decodeSetKey,
    readUintL_append_lt, hbn, hbv, h1, h2, h3, h4, h5, h6, h7, h8]

/-- Round trip for `errorMessage`, which only holds when `ErrorCode` happens to
equal the description length: the decoder reuses `ErrorCode` as the string size. -/
theorem decodeError_encode (s : errorMessage)
    (h1 : s.MessageType < 256) (h2 : s.More < 256) (h3 : s.ErrorCode < 65536)
    (hc : s.ErrorCode = s.Description.length) :
    decodeError (encodeError [] s) = some s := by
  have hbd : readBytesL s.Description s.ErrorCode = some (s.Description, []) := by
    rw [hc]; exact readBytesL_eof _
  simp [encodeError, writeUint, List.nil_append, List.append_assoc, decodeError,
    readUintL_append_lt, hbd, h1, h2, h3]

theorem decodeSetKeyAckNack_encode (s : setKeyAckNackMessage)
    (h1 : s.MessageType < 256) (h2 : s.More < 256) (h3 : s.Ack < 65536)
    (h4 : s.RequestID < 65536) :
    decodeSetKeyAckNack (encodeSetKeyAckNack [] s) = some s := by
  simp [encodeSetKeyAckNack, writeUint, List.nil_append, List.append_assoc,
    decodeSetKeyAckNack, readUintL_append_lt, readUintL_eof_lt, h1, h2, h3, h4]

/-- The byte group emitted for one `keyInformation` element. -/
def keyInfoBytes (k : keyInformation) : List Nat :=
  uintBytes k.Version 4 ++ uintBytes k.NameLength 4 ++ k.Name ++
    uintBytes k.ValueLength 4 ++ k.Value

/-- Field bounds and the length-field proviso for one `keyInformation`. -/
def keyInfoGood (k : keyInformation) : Prop :=
  k.Version < 4294967296 ∧ k.NameLength < 4294967296 ∧ k.ValueLength < 4294967296 ∧
    k.NameLength = k.Name.length ∧ k.ValueLength = k.Value.length

theorem encodeKeyInfo_eq (m : List Nat) (k : keyInformation) :
    encodeKeyInfo m k = m ++ keyInfoBytes k := by
  simp [encodeKeyInfo, writeUint, keyInfoBytes, List.append_assoc]

theorem foldl_encodeKeyInfo (ks : List keyInformation) (m : List Nat) :
    ks.foldl encodeKeyInfo m = m ++ (ks.map keyInfoBytes).flatten := by
  induction ks generalizing m with
  | nil => simp
  | cons k ks ih => simp [encodeKeyInfo_eq, ih, List.append_assoc]

theorem keyInfoBytes_ne_nil (k : keyInformation) : keyInfoBytes k ≠ [] := by
  simp [keyInfoBytes, uintBytes]

theorem decodeKeyInfo_bytes (k : keyInformation) (rest : List Nat) (hg : keyInfoGood k) :
    decodeKeyInfo (keyInfoBytes k ++ rest) = some (k, rest) := by
  obtain ⟨h1, h2, h3, hn, hv⟩ := hg
  have hbn : readBytesL (k.Name ++ (uintBytes k.ValueLength 4 ++ (k.Value ++ rest)))
      k.NameLength = some (k.Name, uintBytes k.ValueLength 4 ++ (k.Value ++ rest)) := by
    rw [hn]; exact readBytesL_append _ _
  have hbv : readBytesL (k.Value ++ rest) k.ValueLength = some (k.Value, rest) := by
    rw [hv]; exact readBytesL_append _ _
  simp [keyInfoBytes, decodeKeyInfo, List.append_assoc, readUintL_append_lt,
    hbn, hbv, h1, h2, h3]

theorem length_le_flatten_keyInfoBytes (ks : List keyInformation) :
    ks.length ≤ ((ks.map keyInfoBytes).flatten).length := by
  induction ks with
  | nil => simp
  | cons k ks ih =>
    have : keyInfoBytes k ≠ [] := keyInfoBytes_ne_nil k
    have hpos : 0 < (keyInfoBytes k).length := List.length_pos.mpr this
    simp only [List.map_cons, List.flatten_cons, List.length_append, List.length_cons]
    omega

theorem decodeKeyInfos_flatten (ks : List keyInformation)
    (hg : ∀ k ∈ ks, keyInfoGood k) :
    ∀ fuel, ks.length ≤ fuel →
      decodeKeyInfos fuel ((ks.map keyInfoBytes).flatten) = some ks := by
  induction ks with
  | nil => intro fuel _; cases fuel <;> simp [decodeKeyInfos]
  | cons k ks ih =>
    intro fuel hf
    match fuel with
    | fuel + 1 =>
      have hne : ((keyInfoBytes k ++ (ks.map keyInfoBytes).flatten).isEmpty) = false := by
        have := keyInfoBytes_ne_nil k
        cases hk : keyInfoBytes k with
        | nil => exact absurd hk this
        | cons a l => simp [hk]
      rw [show ((k :: ks).map keyInfoBytes).flatten =
        keyInfoBytes k ++ (ks.map keyInfoBytes).flatten by simp]
      rw [decodeKeyInfos, hne]
      simp only [Bool.false_eq_true, if_false]
      simp only [decodeKeyInfo_bytes k _ (hg k (by simp)),
        ih (fun x hx => hg x (by simp [hx])) fuel (by simpa using hf)]

theorem decodeKeyInformation_encode (s : keyInformationMessage)
    (h1 : s.MessageType < 256) (h2 : s.More < 256)
    (hg : ∀ k ∈ s.Keys, keyInfoGood k) :
    decodeKeyInformation (encodeKeyInformation [] s) = some s := by
  have henc : encodeKeyInformation [] s =
      uintBytes s.MessageType 1 ++ (uintBytes s.More 1 ++ (s.Keys.map keyInfoBytes).flatten) := by
    simp [encodeKeyInformation, writeUint, foldl_encodeKeyInfo, List.append_assoc]
  have hfuel : s.Keys.length ≤
      (uintBytes s.MessageType 1 ++ (uintBytes s.More 1 ++
        (s.Keys.map keyInfoBytes).flatten)).length := by
    have := length_le_flatten_keyInfoBytes s.Keys
    simp only [List.length_append, uintBytes_length]
    omega
  have hd := decodeKeyInfos_flatten s.Keys hg _ hfuel
  simp only [decodeKeyInformation, henc]
  generalize (uintBytes s.MessageType 1 ++ (uintBytes s.More 1 ++
    (List.map keyInfoBytes s.Keys).flatten)).length = N at hd ⊢
  simp [readUintL_append_lt, h1, h2, hd]

theorem decodeBroadcast_encode (s : broadcastMessage)
    (h1 : s.MessageType < 256) (h2 : s.More < 256) (h3 : s.DataLength < 4294967296) :
    decodeBroadcast (encodeBroadcast [] s) = some s := by
  simp [encodeBroadcast, writeUint, List.nil_append, List.append_assoc, decodeBroadcast,
    readUintL_append_lt, h1, h2, h3]

/-! ### Storage contract: document store with the CAS append

The store backing `MemoryDocumentDB` (a map from document id to bytes) is
modelled as an association list.  `AppendDocument` below is the per-call logic
shared verbatim by `MemoryDocumentDB.AppendDocument` and
`SQLITEDocumentDB.AppendDocument`: look up the document, `Missing` when absent,
`Conflict` with the actual length when the recorded length differs from
`oldLength`, otherwise append and return the new length. -/

abbrev DocStore := List (String × List Nat)

def lookupDoc : DocStore → String → Option (List Nat)
  | [], _ => none
  | e :: db, docID => if e.1 == docID then some e.2 else lookupDoc db docID

def setDoc : DocStore → String → List Nat → DocStore
  | [], _, _ => []
  | e :: db, docID, data => (if e.1 == docID then (e.1, data) else e) :: setDoc db docID data

def insertDoc (db : DocStore) (docID : String) (data : List Nat) : DocStore :=
  db ++ [(docID, data)]

inductive AppendResult
  | ok (newLength : Nat)
  | conflict (currentLength : Nat)
  | missing
deriving Repr, DecidableEq

def AppendDocument (db : DocStore) (docID : String) (oldLength : Nat)
    (newData : List Nat) : AppendResult × DocStore :=
  match lookupDoc db docID with
  | none => (.missing, db)
  | some data =>
    if data.length ≠ oldLength then (.conflict data.length, db)
    else (.ok (data ++ newData).length, setDoc db docID (data ++ newData))

theorem lookupDoc_setDoc_self (db : DocStore) (docID : String) (d0 data : List Nat)
    (h : lookupDoc db docID = some d0) :
    lookupDoc (setDoc db docID data) docID = some data := by
  induction db with
  | nil => simp [lookupDoc] at h
  | cons e db ih =>
    by_cases he : e.1 = docID
    · simp [lookupDoc, setDoc, he]
    · have he' : (e.1 == docID) = false := by simpa using he
      simp only [lookupDoc, setDoc, he', Bool.false_eq_true, if_false] at h ⊢
      exact ih h

/-! ### Client engine: processAppend (after a successful decode) -/

inductive clientReply
  | ackNack (ack : Nat) (offset : Nat)
  | errorReply (code : Nat) (text : String)
deriving Repr, DecidableEq

structure hubAppendCall where
  docID : String
  sourceID : String
  offset : Nat
  data : List Nat
deriving Repr, DecidableEq

structure processAppendResult where
  db : DocStore
  replies : List clientReply
  lastEnd : Nat
  hubAppends : List hubAppendCall
deriving Repr, DecidableEq

/-- `client.processAppend` after a successful decode of the append message:
without write permission the payload is nilled out first, then
`AppendDocument` is called; the four outcome branches mirror the source. -/
def processAppend (writePermission : Bool) (lastEnd : Nat) (db : DocStore)
    (docID clientID : String) (offset : Nat) (data0 : List Nat) : processAppendResult :=
  let data := if writePermission then data0 else []
  match AppendDocument db docID offset data with
  | (.ok newLength, db') =>
    if writePermission then
      ⟨db', [.ackNack 1 newLength], newLength, [⟨docID, clientID, offset, data⟩]⟩
    else
      ⟨db', [.ackNack 2 newLength], lastEnd, []⟩
  | (.conflict cur, db') => ⟨db', [.ackNack 0 cur], lastEnd, []⟩
  | (.missing, db') => ⟨db', [.errorReply 1 "does not exist"], lastEnd, []⟩

/-! ### Client engine: the per-recipient append queue (enqueueAppend) -/

structure clientQueue where
  lastEnd : Nat
  protocolVersion : Nat
  queued : List (List Nat)
deriving Repr, DecidableEq

/-- `client.enqueueAppend`: skip when `offset < c.lastEnd`, otherwise advance
`lastEnd` to `offset + len(data)` and enqueue an APPEND_V2 or APPEND (V3)
message depending on the negotiated protocol version. -/
def enqueueAppend (c : clientQueue) (data : List Nat) (offset : Nat) : clientQueue :=
  if offset < c.lastEnd then c
  else
    let c := { c with lastEnd := offset + data.length }
    if c.protocolVersion < 3 then
      { c with queued := c.queued ++ [encodeAppendV2 [] ⟨appendV2MessageType, 0, offset, data⟩] }
    else
      { c with queued := c.queued ++ [encodeAppend [] ⟨appendMessageType, 0, 0, offset, data⟩] }

/-! ### Fragmentation (sendMessage) and reassembly (readMessage)

`sendMessage` holds a Go `int` maximum size that always originates from a
`uint32`, hence is nonnegative; it is modelled as `Nat`, but the source's
`maxSize - 2` subtraction is computed in `Int` so that the negative-bound
panic of `data[:send]` for `maxSize < 2` is preserved.  The writes to the
socket are collected as the returned list of frames.  The continuation loop of
the source has no bound; it is modelled with fuel, where `.spun` means the
fuel ran out without the loop finishing (with fuel at least the data length
this can only happen when the loop makes no progress), and `.panicked` models
a Go runtime panic. -/

inductive FragResult
  | frames (fs : List (List Nat))
  | panicked
  | spun
deriving Repr, DecidableEq

/-- One iteration of the continuation loop of `sendMessage`:
`send = len(data)`, capped at `maxSize - 2` with `more = 1`; `none` models the
panic of `data[:send]` when `maxSize - 2` is negative. -/
def sendLoopStep (maxSize : Nat) (data : List Nat) : Option (List Nat × List Nat) :=
  let sendI : Int :=
    if (data.length : Int) > (maxSize : Int) - 2 then (maxSize : Int) - 2
    else (data.length : Int)
  let more : Nat := if (data.length : Int) > (maxSize : Int) - 2 then 1 else 0
  if sendI < 0 then none
  else some (continuationMessageType :: more :: data.take sendI.toNat, data.drop sendI.toNat)

def sendLoop (maxSize : Nat) : Nat → List Nat → FragResult
  | _, [] => .frames []
  | 0, _ :: _ => .spun
  | fuel + 1, data =>
    match sendLoopStep maxSize data with
    | none => .panicked
    | some (f, rest) =>
      match sendLoop maxSize fuel rest with
      | .frames fs => .frames (f :: fs)
      | r => r

/-- `sendMessage`: the first frame is `data[:min(len,maxSize)]` with `data[1]`
overwritten by the fragmentation flag; the remaining bytes go through the
continuation loop.  An encoded message always has at least two bytes; shorter
input would panic on the `data[1]` store. -/
def sendMessage (data : List Nat) (maxSize : Nat) (fuel : Nat) : FragResult :=
  if data.length < 2 then .panicked
  else
    let data1 := data.set 1 (if maxSize < data.length then 1 else 0)
    let send := if maxSize < data.length then maxSize else data.length
    match sendLoop maxSize fuel (data1.drop send) with
    | .frames fs => .frames (data1.take send :: fs)
    | r => r

/-- The continuation-joining loop of `readMessage` once the first frame is in
`buffer`: each further frame must be a continuation (`0xff`), its payload is
appended, and the message completes when the `more` byte is `0`.  `none`
models the source's panics (frame shorter than two bytes, non-continuation
frame) and the case where the frames run out before `more == 0`. -/
def readMessageLoop (buffer : List Nat) : List (List Nat) → Option (List Nat)
  | [] => none
  | p :: rest =>
    if p.length < 2 then none
    else if p.headD 0 ≠ continuationMessageType then none
    else
      let buffer := buffer ++ p.drop 2
      if p.getD 1 0 = 0 then some buffer else readMessageLoop buffer rest

/-- `readMessage` over a list of received frames: the first frame is taken
whole (including its two header bytes), continuations contribute `p[2:]`. -/
def readMessage : List (List Nat) → Option (List Nat)
  | [] => none
  | p :: rest =>
    if p.length < 2 then none
    else if p.getD 1 0 = 0 then some p
    else readMessageLoop p rest

/-- Fragmenting with fuel `len(data)` and reassembling the produced frames. -/
def fragThenReassemble (data : List Nat) (maxSize : Nat) : Option (List Nat) :=
  match sendMessage data maxSize data.length with
  | .frames fs => readMessage fs
  | _ => none

theorem getD_set_self (l : List Nat) (n v : Nat) (h : n < l.length) :
    (l.set n v).getD n 0 = v := by
  rw [List.getD_eq_getElem _ _ (by simpa using h)]
  simp [List.getElem_set_self]

theorem getD_take (l : List Nat) (n m : Nat) (h : n < m) (hl : n < l.length) :
    (l.take m).getD n 0 = l.getD n 0 := by
  rw [List.getD_eq_getElem _ _ (by simp; omega), List.getD_eq_getElem _ _ hl]
  simp [List.getElem_take]

/-- For `maxSize ≥ 3` one loop iteration either emits a full continuation
frame carrying `maxSize - 2` payload bytes, or emits the final frame with the
whole remaining data. -/
theorem sendLoopStep_of_big (maxSize : Nat) (h : 3 ≤ maxSize) (d : List Nat) :
    sendLoopStep maxSize d =
      if maxSize - 2 < d.length
      then some (continuationMessageType :: 1 :: d.take (maxSize - 2), d.drop (maxSize - 2))
      else some (continuationMessageType :: 0 :: d, []) := by
  simp only [sendLoopStep]
  by_cases hc : maxSize - 2 < d.length
  · have hgt : (d.length : Int) > (maxSize : Int) - 2 := by omega
    rw [if_pos hgt, if_pos hgt, if_neg (by omega : ¬ ((maxSize : Int) - 2 < 0)), if_pos hc]
    have htn : ((maxSize : Int) - 2).toNat = maxSize - 2 := by omega
    rw [htn]
  · have hgt : ¬ ((d.length : Int) > (maxSize : Int) - 2) := by omega
    rw [if_neg hgt, if_neg hgt, if_neg (by omega : ¬ ((d.length : Int) < 0)), if_neg hc]
    have htn : ((d.length : Nat) : Int).toNat = d.length := by omega
    rw [htn, List.take_length, List.drop_length]

/-- For `maxSize = 2` an iteration emits an empty continuation frame and
leaves the remaining data exactly as it was: the loop spins forever. -/
theorem sendLoopStep_two (d : List Nat) (hd : d ≠ []) :
    sendLoopStep 2 d = some ([continuationMessageType, 1], d) := by
  have hlen : 0 < d.length := List.length_pos.mpr hd
  simp only [sendLoopStep]
  have hgt : (d.length : Int) > ((2 : Nat) : Int) - 2 := by omega
  rw [if_pos hgt, if_pos hgt, if_neg (by omega : ¬ (((2 : Nat) : Int) - 2 < 0))]
  have htn : (((2 : Nat) : Int) - 2).toNat = 0 := by omega
  rw [htn, List.take_zero, List.drop_zero]

/-- For `maxSize = 1` the very first iteration computes `send = -1` and the
slice `data[:send]` panics. -/
theorem sendLoopStep_one (d : List Nat) (hd : d ≠ []) :
    sendLoopStep 1 d = none := by
  have hlen : 0 < d.length := List.length_pos.mpr hd
  simp only [sendLoopStep]
  have hgt : (d.length : Int) > ((1 : Nat) : Int) - 2 := by omega
  rw [if_pos hgt, if_pos (by omega : ((1 : Nat) : Int) - 2 < 0)]

theorem sendLoop_two_spins (d : List Nat) (hd : d ≠ []) :
    ∀ fuel, sendLoop 2 fuel d = .spun := by
  intro fuel
  induction fuel with
  | zero => cases d with
    | nil => exact absurd rfl hd
    | cons a l => rfl
  | succ n ih =>
    cases d with
    | nil => exact absurd rfl hd
    | cons a l =>
      rw [sendLoop]
      · rw [sendLoopStep_two _ hd]
        simp only [ih]
      · simp

theorem sendLoop_one_panics (d : List Nat) (hd : d ≠ []) :
    ∀ fuel, 0 < fuel → sendLoop 1 fuel d = .panicked := by
  intro fuel hf
  match fuel, hf with
  | n + 1, _ =>
    cases d with
    | nil => exact absurd rfl hd
    | cons a l =>
      rw [sendLoop]
      · rw [sendLoopStep_one _ hd]
      · simp

/-- Reading one well-formed continuation frame appends its payload. -/
theorem readMessageLoop_cons_cont (more : Nat) (payload buffer : List Nat)
    (fs : List (List Nat)) :
    readMessageLoop buffer ((continuationMessageType :: more :: payload) :: fs) =
      if more = 0 then some (buffer ++ payload) else readMessageLoop (buffer ++ payload) fs := by
  rw [readMessageLoop]
  rw [if_neg (by simp), if_neg (by simp)]
  simp only [List.drop_succ_cons, List.drop_zero, List.getD_cons_succ, List.getD_cons_zero]

theorem sendLoop_nil (maxSize fuel : Nat) : sendLoop maxSize fuel [] = .frames [] := by
  cases fuel <;> rfl

/-- Main loop invariant for `maxSize ≥ 3`: with fuel at least the remaining
length the loop terminates, and joining the continuation payloads onto any
buffer restores `buffer ++ d`. -/
theorem sendLoop_spec (maxSize : Nat) (h3 : 3 ≤ maxSize) :
    ∀ fuel (d : List Nat), d ≠ [] → d.length ≤ fuel →
      ∃ fs, sendLoop maxSize fuel d = .frames fs ∧
        ∀ buffer, readMessageLoop buffer fs = some (buffer ++ d) := by
  intro fuel
  induction fuel with
  | zero =>
    intro d hd hlen
    exact absurd (List.length_eq_zero.mp (Nat.le_zero.mp hlen)) hd
  | succ n ih =>
    intro d hd hlen
    obtain ⟨a, l, rfl⟩ : ∃ a l, d = a :: l := by
      cases d with
      | nil => exact absurd rfl hd
      | cons a l => exact ⟨a, l, rfl⟩
    have hstep := sendLoopStep_of_big maxSize h3 (a :: l)
    by_cases hc : maxSize - 2 < (a :: l).length
    · rw [if_pos hc] at hstep
      have hdl : ((a :: l).drop (maxSize - 2)).length = (a :: l).length - (maxSize - 2) :=
        List.length_drop _ _
      have hrest_ne : (a :: l).drop (maxSize - 2) ≠ [] := by
        intro hnil
        rw [hnil] at hdl
        simp only [List.length_nil] at hdl
        omega
      have hrest_len : ((a :: l).drop (maxSize - 2)).length ≤ n := by
        simp only [List.length_cons] at hdl hlen hc ⊢
        omega
      obtain ⟨fs, hfs, hre⟩ := ih _ hrest_ne hrest_len
      refine ⟨(continuationMessageType :: 1 :: (a :: l).take (maxSize - 2)) :: fs, ?_, ?_⟩
      · rw [sendLoop]
        · rw [hstep]
          simp only [hfs]
        · simp
      · intro buffer
        rw [readMessageLoop_cons_cont, if_neg (by norm_num), hre]
        rw [List.append_assoc, List.take_append_drop]
    · rw [if_neg hc] at hstep
      refine ⟨[continuationMessageType :: 0 :: a :: l], ?_, ?_⟩
      · rw [sendLoop]
        · rw [hstep]
          simp only [sendLoop_nil]
        · simp
      · intro buffer
        rw [readMessageLoop_cons_cont, if_pos rfl]

theorem readMessage_cons (p : List Nat) (rest : List (List Nat)) :
    readMessage (p :: rest) =
      if p.length < 2 then none
      else if p.getD 1 0 = 0 then some p
      else readMessageLoop p rest := rfl

/-- For `maxSize ≥ 3`, fragmenting then reassembling returns the original
message with byte 1 (the `more` flag the writer stores into `data[1]`)
replaced by the fragmentation flag. -/
theorem sendMessage_reassemble (data : List Nat) (maxSize : Nat) (h3 : 3 ≤ maxSize)
    (h2 : 2 ≤ data.length) :
    fragThenReassemble data maxSize =
      some (data.set 1 (if maxSize < data.length then 1 else 0)) := by
  by_cases hm : maxSize < data.length
  · rw [fragThenReassemble, sendMessage, if_neg (by omega : ¬ data.length < 2)]
    simp only [if_pos hm]
    have hd1len : (data.set 1 1).length = data.length := by simp
    have hrest_ne : (data.set 1 1).drop maxSize ≠ [] := by
      intro hnil
      have := congrArg List.length hnil
      simp only [List.length_drop, hd1len, List.length_nil] at this
      omega
    have hrest_len : ((data.set 1 1).drop maxSize).length ≤ data.length := by
      simp only [List.length_drop, hd1len]
      omega
    obtain ⟨fs, hfs, hre⟩ := sendLoop_spec maxSize h3 data.length _ hrest_ne hrest_len
    simp only [hfs]
    rw [readMessage_cons]
    have hplen : ((data.set 1 1).take maxSize).length = maxSize := by
      simp only [List.length_take, hd1len]
      omega
    rw [if_neg (by omega)]
    have hgd : ((data.set 1 1).take maxSize).getD 1 0 = 1 := by
      rw [getD_take _ _ _ (by omega) (by omega)]
      exact getD_set_self _ _ _ (by omega)
    rw [hgd, if_neg (by norm_num), hre, List.take_append_drop]
  · rw [fragThenReassemble, sendMessage, if_neg (by omega : ¬ data.length < 2)]
    simp only [if_neg hm]
    have hd0len : (data.set 1 0).length = data.length := by simp
    have hdrop : (data.set 1 0).drop data.length = [] := by
      rw [← hd0len, List.drop_length]
    rw [hdrop, sendLoop_nil]
    have htake : (data.set 1 0).take data.length = data.set 1 0 := by
      rw [← hd0len, List.take_length]
    rw [htake]
    simp only [readMessage_cons]
    rw [if_neg (by omega), getD_set_self _ _ _ (by omega), if_pos rfl]

/-- With `maxSize ∈ {1, 2}` and a message longer than `maxSize`, the writer
never produces a complete frame sequence: for `maxSize = 2` the continuation
loop spins without consuming data, for `maxSize = 1` it panics on the
negative slice bound. -/
theorem sendMessage_small_never_frames (data : List Nat) (maxSize fuel : Nat)
    (h : maxSize = 1 ∨ maxSize = 2) (hlen : maxSize < data.length) :
    ∀ fs, sendMessage data maxSize fuel ≠ FragResult.frames fs := by
  intro fs
  have h2 : 2 ≤ data.length := by omega
  rw [sendMessage, if_neg (by omega : ¬ data.length < 2)]
  simp only [if_pos hlen]
  have hd1len : (data.set 1 1).length = data.length := by simp
  have hrest_ne : (data.set 1 1).drop maxSize ≠ [] := by
    intro hnil
    have := congrArg List.length hnil
    simp only [List.length_drop, hd1len, List.length_nil] at this
    omega
  rcases h with h1 | h2'
  · subst h1
    cases fuel with
    | zero =>
      obtain ⟨x, xs, hx⟩ : ∃ x xs, (data.set 1 1).drop 1 = x :: xs := by
        cases hxx : (data.set 1 1).drop 1 with
        | nil => exact absurd hxx hrest_ne
        | cons x xs => exact ⟨x, xs, rfl⟩
      rw [hx]
      simp [sendLoop]
    | succ n =>
      rw [sendLoop_one_panics _ hrest_ne (n + 1) (Nat.succ_pos n)]
      simp
  · subst h2'
    rw [sendLoop_two_spins _ hrest_ne fuel]
    simp

/-- Lines 541–543 of the client engine: a non-zero `maxMessageSize` from the
INIT message is installed as the writer's `maxSize` without validation. -/
def installMaxSize (current : Nat) (maxMessageSize : Nat) : Nat :=
  if maxMessageSize ≠ 0 then maxMessageSize else current

/-! ### The session hub: client keys, SetClientKey, RemoveClient

Client and key names/values are byte strings (`List Nat`); client ids are
`String`s.  The hub executes every operation below on its single serializer
task, so each operation is modelled as a pure function of the session state;
calls into other clients' queues (`enqueueAppend`, `notifyKeysUpdated`) are
collected in the result as (recipient id, payload) pairs. -/

structure Key where
  Version : Int
  Name : List Nat
  Value : List Nat
deriving Repr, DecidableEq

structure clientKey where
  key : Key
  owner : String
deriving Repr, DecidableEq

structure session where
  clients : List String
  keys : List clientKey
deriving Repr, DecidableEq

/-- The first-match CAS walk over the session's client-key list inside
`hub.SetClientKey`: on the first key with the requested name, replace it when
its version equals `oldVersion`, otherwise reply `false` immediately. -/
inductive KeyCas
  | notFound
  | updated (keys : List clientKey)
  | conflict
deriving Repr, DecidableEq

def casClientKeys (oldVersion : Int) (newKey : clientKey) : List clientKey → KeyCas
  | [] => .notFound
  | k :: rest =>
    if k.key.Name == newKey.key.Name then
      if k.key.Version == oldVersion then .updated (newKey :: rest) else .conflict
    else
      match casClientKeys oldVersion newKey rest with
      | .notFound => .notFound
      | .updated rest' => .updated (k :: rest')
      | .conflict => .conflict

structure setClientKeyResult where
  found : Bool
  keys : List clientKey
  notified : List (String × Key)
deriving Repr, DecidableEq

/-- `hub.SetClientKey`: CAS on the session's client-key list; on the first key
whose name matches, update in place if the version matches `oldVersion`
(the new key's owner is the source), reject otherwise; append when the name is
absent and `oldVersion == 0`; on accept fan the key out to every other
client.  The decision is the `found` component (sent back on the caller's
reply channel). -/
def SetClientKey (sess : session) (sourceID : String) (oldVersion newVersion : Int)
    (name value : List Nat) : setClientKeyResult :=
  let newKey : clientKey := ⟨⟨newVersion, name, value⟩, sourceID⟩
  let fanout := (sess.clients.filter (fun c => c != sourceID)).map (fun c => (c, newKey.key))
  match casClientKeys oldVersion newKey sess.keys with
  | .updated keys' => ⟨true, keys', fanout⟩
  | .conflict => ⟨false, sess.keys, []⟩
  | .notFound =>
    if oldVersion == 0 then ⟨true, sess.keys ++ [newKey], fanout⟩
    else ⟨false, sess.keys, []⟩

theorem casClientKeys_eq_notFound_iff (oldV : Int) (nk : clientKey) (keys : List clientKey) :
    casClientKeys oldV nk keys = .notFound ↔ ∀ k ∈ keys, k.key.Name ≠ nk.key.Name := by
  induction keys with
  | nil => simp [casClientKeys]
  | cons k rest ih =>
    rw [casClientKeys]
    by_cases hn : k.key.Name = nk.key.Name
    · rw [if_pos (by simpa using hn)]
      constructor
      · intro h
        split at h <;> exact absurd h (by simp)
      · intro h
        exact absurd hn (h k (by simp))
    · rw [if_neg (by simpa using hn)]
      cases hcas : casClientKeys oldV nk rest <;> simp_all

theorem casClientKeys_exists_updated_iff (oldV : Int) (nk : clientKey) (keys : List clientKey)
    (hu : (keys.map (fun k => k.key.Name)).Nodup) :
    (∃ ks', casClientKeys oldV nk keys = .updated ks') ↔
      ∃ k ∈ keys, k.key.Name = nk.key.Name ∧ k.key.Version = oldV := by
  induction keys with
  | nil => simp [casClientKeys]
  | cons k rest ih =>
    simp only [List.map_cons, List.nodup_cons] at hu
    obtain ⟨hkn, hrest⟩ := hu
    rw [casClientKeys]
    by_cases hn : k.key.Name = nk.key.Name
    · rw [if_pos (by simpa using hn)]
      by_cases hv : k.key.Version = oldV
      · rw [if_pos (by simpa using hv)]
        constructor
        · intro _; exact ⟨k, by simp, hn, hv⟩
        · intro _; exact ⟨nk :: rest, rfl⟩
      · rw [if_neg (by simpa using hv)]
        constructor
        · rintro ⟨ks', h⟩; exact absurd h (by simp)
        · rintro ⟨k', hk', hname, hver⟩
          rcases List.mem_cons.mp hk' with rfl | hmem
          · exact absurd hver hv
          · exact absurd (hn ▸ hname : k'.key.Name = k.key.Name)
              (by intro he; exact hkn (he ▸ List.mem_map_of_mem (fun x => x.key.Name) hmem))
    · rw [if_neg (by simpa using hn)]
      cases hcas : casClientKeys oldV nk rest with
      | notFound =>
        constructor
        · rintro ⟨ks', h⟩; exact absurd h (by simp)
        · rintro ⟨k', hk', hname, hver⟩
          rcases List.mem_cons.mp hk' with rfl | hmem
          · exact absurd hname hn
          · obtain ⟨ks', h⟩ := (ih hrest).mpr ⟨k', hmem, hname, hver⟩
            rw [hcas] at h
            exact absurd h (by simp)
      | updated ks0 =>
        constructor
        · intro _
          obtain ⟨k', hk', hname, hver⟩ := (ih hrest).mp ⟨ks0, hcas⟩
          exact ⟨k', by simp [hk'], hname, hver⟩
        · intro _; exact ⟨k :: ks0, rfl⟩
      | conflict =>
        constructor
        · rintro ⟨ks', h⟩; exact absurd h (by simp)
        · rintro ⟨k', hk', hname, hver⟩
          rcases List.mem_cons.mp hk' with rfl | hmem
          · exact absurd hname hn
          · obtain ⟨ks', h⟩ := (ih hrest).mpr ⟨k', hmem, hname, hver⟩
            rw [hcas] at h
            exact absurd h (by simp)

theorem casClientKeys_updated_filters (oldV : Int) (nk : clientKey) (keys : List clientKey)
    (hu : (keys.map (fun k => k.key.Name)).Nodup) (ks' : List clientKey)
    (h : casClientKeys oldV nk keys = .updated ks') :
    ks'.filter (fun k => k.key.Name != nk.key.Name) =
        keys.filter (fun k => k.key.Name != nk.key.Name) ∧
      ks'.filter (fun k => k.key.Name == nk.key.Name) = [nk] := by
  induction keys generalizing ks' with
  | nil => exact absurd h (by simp [casClientKeys])
  | cons k rest ih =>
    simp only [List.map_cons, List.nodup_cons] at hu
    obtain ⟨hkn, hrest⟩ := hu
    rw [casClientKeys] at h
    by_cases hn : k.key.Name = nk.key.Name
    · rw [if_pos (by simpa using hn)] at h
      by_cases hv : k.key.Version = oldV
      · rw [if_pos (by simpa using hv)] at h
        obtain rfl : nk :: rest = ks' := by simpa using h
        have hfrest : rest.filter (fun x => x.key.Name == nk.key.Name) = [] := by
          rw [List.filter_eq_nil_iff]
          intro x hx hbx
          exact hkn (hn ▸ (by simpa using hbx : x.key.Name = nk.key.Name) ▸
            List.mem_map_of_mem (fun y => y.key.Name) hx)
        constructor
        · rw [List.filter_cons_of_neg (by simp), List.filter_cons_of_neg (by simp [hn])]
        · rw [List.filter_cons_of_pos (by simp), hfrest]
      · rw [if_neg (by simpa using hv)] at h
        exact absurd h (by simp)
    · rw [if_neg (by simpa using hn)] at h
      cases hcas : casClientKeys oldV nk rest with
      | notFound => rw [hcas] at h; exact absurd h (by simp)
      | conflict => rw [hcas] at h; exact absurd h (by simp)
      | updated ks0 =>
        rw [hcas] at h
        obtain rfl : k :: ks0 = ks' := by simpa using h
        obtain ⟨h1, h2⟩ := ih hrest ks0 hcas
        constructor
        · rw [List.filter_cons_of_pos (by simpa using hn),
            List.filter_cons_of_pos (by simpa using hn), h1]
        · rw [List.filter_cons_of_neg (by simpa using hn), h2]

theorem casClientKeys_conflict_keeps (oldV : Int) (nk : clientKey) (keys : List clientKey) :
    casClientKeys oldV nk keys = .conflict →
      ∃ k ∈ keys, k.key.Name = nk.key.Name ∧ k.key.Version ≠ oldV := by
  induction keys with
  | nil => simp [casClientKeys]
  | cons k rest ih =>
    rw [casClientKeys]
    by_cases hn : k.key.Name = nk.key.Name
    · rw [if_pos (by simpa using hn)]
      by_cases hv : k.key.Version = oldV
      · rw [if_pos (by simpa using hv)]
        intro h; exact absurd h (by simp)
      · intro _; exact ⟨k, by simp, hn, hv⟩
    · rw [if_neg (by simpa using hn)]
      cases hcas : casClientKeys oldV nk rest with
      | notFound => intro h; exact absurd h (by simp)
      | updated ks0 => intro h; exact absurd h (by simp)
      | conflict =>
        intro _
        obtain ⟨k', hk', hname, hver⟩ := ih hcas
        exact ⟨k', by simp [hk'], hname, hver⟩

structure webhookEvent where
  name : String
  documentID : String
  sendBy : Nat
deriving Repr, DecidableEq

structure removeClientResult where
  clients : List String
  keys : List clientKey
  sessionDeleted : Bool
  notified : List (String × List Key)
  webhook : Option webhookEvent
deriving Repr, DecidableEq

/-- Swap-removal (`list[i] = list[len-1]; list = list[:len-1]`) removes
exactly the element at index `i`, up to order. -/
theorem perm_set_take (l : List String) (i : Nat) (hi : i < l.length) :
    List.Perm (((l.set i (l.getD (l.length - 1) "")).take (l.length - 1)) ++ [l.getD i ""]) l := by
  induction l generalizing i with
  | nil => simp at hi
  | cons x xs ih =>
    cases i with
    | zero =>
      cases hxs : xs with
      | nil => simp
      | cons y ys =>
        obtain ⟨m, hm⟩ : ∃ m, xs.length = m + 1 := ⟨ys.length, by rw [hxs]; rfl⟩
        have hxs_ne : xs ≠ [] := by rw [hxs]; exact List.cons_ne_nil y ys
        rw [← hxs]
        have hz : (x :: xs).getD ((x :: xs).length - 1) "" = xs.getD (xs.length - 1) "" := by
          simp only [List.length_cons, Nat.add_sub_cancel, hm]
          rw [List.getD_cons_succ]
        rw [hz]
        have hset : (x :: xs).set 0 (xs.getD (xs.length - 1) "") =
            xs.getD (xs.length - 1) "" :: xs := rfl
        rw [hset]
        have htake : (xs.getD (xs.length - 1) "" :: xs).take ((x :: xs).length - 1) =
            xs.getD (xs.length - 1) "" :: xs.take (xs.length - 1) := by
          simp only [List.length_cons, Nat.add_sub_cancel, hm, List.take_succ_cons]
        rw [htake, List.getD_cons_zero, ← List.dropLast_eq_take]
        have hlast : xs.getD (xs.length - 1) "" = xs.getLast hxs_ne := by
          rw [List.getD_eq_getElem _ _ (by omega), List.getLast_eq_getElem]
        have step1 : List.Perm ((xs.getD (xs.length - 1) "" :: xs.dropLast) ++ [x])
            (x :: (xs.getD (xs.length - 1) "" :: xs.dropLast)) :=
          List.perm_append_singleton x _
        have step2 : List.Perm (x :: (xs.getD (xs.length - 1) "" :: xs.dropLast))
            (x :: (xs.dropLast ++ [xs.getD (xs.length - 1) ""])) :=
          List.Perm.cons x (List.perm_append_singleton _ _).symm
        have step3 : x :: (xs.dropLast ++ [xs.getD (xs.length - 1) ""]) = x :: xs := by
          rw [hlast, List.dropLast_append_getLast hxs_ne]
        exact (step1.trans step2).trans (step3 ▸ List.Perm.refl _)
    | succ j =>
      have hj : j < xs.length := by simpa using hi
      obtain ⟨m, hm⟩ : ∃ m, xs.length = m + 1 := ⟨xs.length - 1, by omega⟩
      have hz : (x :: xs).getD ((x :: xs).length - 1) "" = xs.getD (xs.length - 1) "" := by
        simp only [List.length_cons, Nat.add_sub_cancel, hm]
        rw [List.getD_cons_succ]
      rw [hz]
      have hset : (x :: xs).set (j + 1) (xs.getD (xs.length - 1) "") =
          x :: xs.set j (xs.getD (xs.length - 1) "") := rfl
      rw [hset]
      have htake : (x :: xs.set j (xs.getD (xs.length - 1) "")).take ((x :: xs).length - 1) =
          x :: (xs.set j (xs.getD (xs.length - 1) "")).take (xs.length - 1) := by
        simp only [List.length_cons, Nat.add_sub_cancel, hm, List.take_succ_cons]
      rw [htake, List.getD_cons_succ]
      exact List.Perm.cons x (ih j hj)

/-- `hub.RemoveClient` (the guarded form executed on the serializer): locate
the client by id and swap-remove it (`list[i] = list[len-1]; list = list[:len-1]`);
when the list becomes empty the session is deleted and, if a webhook URL is
configured, an `idle-session` event with deadline `now + 10` seconds is
enqueued; every client-key owned by the removed client is dropped and turned
into a tombstone (empty value, version incremented) which is delivered once to
each remaining client. -/
def RemoveClient (docID : String) (sess : session) (clientID : String)
    (webhookURL : String) (now : Nat) : removeClientResult :=
  let idx := sess.clients.findIdx? (fun c => c == clientID)
  let clients' :=
    match idx with
    | none => sess.clients
    | some i => (sess.clients.set i (sess.clients.getD (sess.clients.length - 1) "")).take
        (sess.clients.length - 1)
  let deleted := idx.isSome && clients'.isEmpty
  let webhook :=
    if deleted && webhookURL != "" then
      some ⟨"idle-session", docID, now + 10⟩
    else none
  let keys' := sess.keys.filter (fun k => k.owner != clientID)
  let removed := (sess.keys.filter (fun k => k.owner == clientID)).map
    (fun k => Key.mk (k.key.Version + 1) k.key.Name [])
  let notified := if removed.isEmpty then [] else clients'.map (fun c => (c, removed))
  ⟨clients', keys', deleted, notified, webhook⟩

/-! ### GetDocument and the INIT permission gate -/

def PossiblyCreate : Nat := 0
def NeverCreate : Nat := 1
def AlwaysCreate : Nat := 2

def errorDoesNotExist : Nat := 1
def errorAccessDenied : Nat := 4

inductive GetDocResult
  | missing
  | alreadyExists
  | ok (doc : List Nat) (created : Bool)
deriving Repr, DecidableEq

/-- `MemoryDocumentDB.GetDocument`: `Missing` when absent in `NeverCreate`
mode, `Exists` when present in `AlwaysCreate` mode, otherwise return the
existing content or create the document from `initialData`. -/
def GetDocument (db : DocStore) (docID : String) (mode : Nat) (initialData : List Nat) :
    GetDocResult × DocStore :=
  match lookupDoc db docID with
  | none =>
    if mode == NeverCreate then (.missing, db)
    else (.ok initialData true, insertDoc db docID initialData)
  | some doc =>
    if mode == AlwaysCreate then (.alreadyExists, db)
    else (.ok doc false, db)

inductive InitOutcome
  | rejected (code : Nat) (db : DocStore)
  | accepted (offset : Nat) (sendData : List Nat) (db : DocStore)
deriving Repr, DecidableEq

/-- The part of `client.processInitMessage` that runs after the token resolved
to `(docID, userID, permissions)`; the permissions string is modelled as its
character list, `strings.Contains(p, "r")` as membership of `'r'`.  It covers
the permission gate
(`'r'` always required; `AlwaysCreate` requires `'w'`; `PossiblyCreate`
without `'w'` degrades to `NeverCreate` with `errorCodeOnMissing` switched to
access-denied), then `GetDocument`, the error mapping, and the initial
append offset computation. -/
def processInitAfterToken (permissions : List Char) (creationMode : Nat) (db : DocStore)
    (docID : String) (reqOffset : Nat) (initialData : List Nat) : InitOutcome :=
  if !(permissions.contains 'r') || (creationMode == AlwaysCreate && !(permissions.contains 'w')) then
    .rejected errorAccessDenied db
  else
    let writePermission := permissions.contains 'w'
    let degrade := !writePermission && creationMode == PossiblyCreate
    let creationMode := if degrade then NeverCreate else creationMode
    let errorCodeOnMissing := if degrade then errorAccessDenied else errorDoesNotExist
    match GetDocument db docID creationMode initialData with
    | (.missing, db') => .rejected errorCodeOnMissing db'
    | (.alreadyExists, db') => .rejected 2 db'
    | (.ok doc created, db') =>
      let offset := if created then doc.length else reqOffset
      if doc.length < offset then .rejected 3 db'
      else .accepted offset (doc.drop offset) db'

/-! ### SetDocumentKey and processSetKey -/

/-- `SetDocumentKey` (SQLite backend): CAS on the per-document key row;
`none` models `ErrConflict`. -/
def SetDocumentKey (keys : List Key) (oldVersion : Int) (key : Key) : Option (List Key) :=
  match keys.find? (fun k => k.Name == key.Name) with
  | some k0 =>
    if k0.Version != oldVersion then none
    else some (keys.map (fun k => if k.Name == key.Name then key else k))
  | none =>
    if oldVersion != 0 then none
    else some (keys ++ [key])

/-- The bytes of `"admin:"`. -/
def adminPrefixBytes : List Nat := [97, 100, 109, 105, 110, 58]

structure processSetKeyResult where
  ack : Bool
  reply : Option (Bool × Nat)
  sessionAfter : session
  docKeys : List Key
  sessionKeyFanout : Option Key
  clientKeyNotified : List (String × Key)
deriving Repr, DecidableEq

/-- `client.processSetKey` after a successful decode: the `admin:` permission
gate, the routing on `Lifetime` (0 → `hub.SetClientKey`, else
`SetDocumentKey` then `hub.SetSessionKey` on success), and the
ack/nack suppression rule (`!ack || OldVersion != NewVersion`). -/
def processSetKey (adminPermission : Bool) (sess : session) (docKeys : List Key)
    (sourceID : String) (m : setKeyMessage) : processSetKeyResult :=
  if adminPrefixBytes.isPrefixOf m.Name && !adminPermission then
    ⟨false, some (false, m.RequestID), sess, docKeys, none, []⟩
  else if m.Lifetime == 0 then
    let r := SetClientKey sess sourceID (m.OldVersion : Int) (m.NewVersion : Int) m.Name m.Value
    let reply := if !r.found || m.OldVersion != m.NewVersion then some (r.found, m.RequestID) else none
    ⟨r.found, reply, ⟨sess.clients, r.keys⟩, docKeys, none, r.notified⟩
  else
    let key : Key := ⟨(m.NewVersion : Int), m.Name, m.Value⟩
    match SetDocumentKey docKeys (m.OldVersion : Int) key with
    | some docKeys' =>
      let reply := if m.OldVersion != m.NewVersion then some (true, m.RequestID) else none
      ⟨true, reply, sess, docKeys', some key, []⟩
    | none => ⟨false, some (false, m.RequestID), sess, docKeys, none, []⟩

/-! ### Claim theorems -/

/-- **C1.** For every document id and call `AppendDocument(id, oldLength, data)`:
the append succeeds and returns the new length iff the document exists and its
current length equals `oldLength`; on a length mismatch it returns `Conflict`
together with the actual current length and leaves the document unchanged; if
the document is absent it returns `Missing`; and an append of zero-length data
with a matching `oldLength` succeeds with the length unchanged. -/
theorem claim_C1 (db : DocStore) (docID : String) (oldLength : Nat) (newData : List Nat) :
    ((∃ n, (AppendDocument db docID oldLength newData).1 = .ok n) ↔
      ∃ data, lookupDoc db docID = some data ∧ data.length = oldLength) ∧
    (∀ data, lookupDoc db docID = some data → data.length = oldLength →
      (AppendDocument db docID oldLength newData).1 = .ok (oldLength + newData.length) ∧
      lookupDoc (AppendDocument db docID oldLength newData).2 docID = some (data ++ newData)) ∧
    (∀ data, lookupDoc db docID = some data → data.length ≠ oldLength →
      AppendDocument db docID oldLength newData = (.conflict data.length, db)) ∧
    (lookupDoc db docID = none →
      AppendDocument db docID oldLength newData = (.missing, db)) ∧
    (∀ data, lookupDoc db docID = some data → data.length = oldLength → newData = [] →
      (AppendDocument db docID oldLength newData).1 = .ok oldLength ∧
      lookupDoc (AppendDocument db docID oldLength newData).2 docID = some data) := by
  cases hl : lookupDoc db docID with
  | none => simp [AppendDocument, hl]
  | some data =>
    by_cases hlen : data.length = oldLength
    · have hset := lookupDoc_setDoc_self db docID data (data ++ newData) hl
      refine ⟨?_, ?_, ?_, ?_, ?_⟩
      · simp [AppendDocument, hl, hlen]
      · intro data' hd' _
        obtain rfl : data = data' := by simpa using hd'
        simp [AppendDocument, hl, hlen, hset]
      · intro data' hd' hne
        obtain rfl : data = data' := by simpa using hd'
        exact absurd hlen hne
      · intro h; exact Option.noConfusion h
      · intro data' hd' _ hnil
        obtain rfl : data = data' := by simpa using hd'
        subst hnil
        have hset0 := lookupDoc_setDoc_self db docID data (data ++ []) hl
        simp only [List.append_nil] at hset0
        simp [AppendDocument, hl, hlen, hset0]
    · refine ⟨?_, ?_, ?_, ?_, ?_⟩
      · simp [AppendDocument, hl, hlen]
      · intro data' hd' he
        obtain rfl : data = data' := by simpa using hd'
        exact absurd he hlen
      · intro data' hd' _
        obtain rfl : data = data' := by simpa using hd'
        simp [AppendDocument, hl, hlen]
      · intro h; exact Option.noConfusion h
      · intro data' hd' he _
        obtain rfl : data = data' := by simpa using hd'
        exact absurd he hlen

theorem claim_C1_witness :
    AppendDocument [("doc", [1, 2, 3])] "doc" 7 [9] = (.conflict 3, [("doc", [1, 2, 3])]) ∧
      (AppendDocument [("doc", [1, 2, 3])] "doc" 3 [9]).1 = .ok 4 :=
  ⟨(claim_C1 [("doc", [1, 2, 3])] "doc" 7 [9]).2.2.1 [1, 2, 3] (by decide) (by decide),
   by
    have h := ((claim_C1 [("doc", [1, 2, 3])] "doc" 3 [9]).2.1 [1, 2, 3] (by decide) (by decide)).1
    exact h⟩

/-- **C2.** For every APPEND message received in the Open state: without write
permission the payload is discarded but `AppendDocument` is still called with
an empty payload; on success with write permission the client receives
`ACK(1, newLength)`, its own `lastEnd` becomes `newLength` and the append is
posted to the hub; on success without write permission it receives
`ACK(2, newLength)` and nothing is posted; on `Conflict` it receives
`NACK(0, currentLength)`; on `Missing` it receives `ERROR(DoesNotExist)`. -/
theorem claim_C2 (writePermission : Bool) (lastEnd : Nat) (db : DocStore)
    (docID clientID : String) (offset : Nat) (data0 : List Nat) :
    (∀ data, lookupDoc db docID = some data → data.length = offset → writePermission = true →
      processAppend writePermission lastEnd db docID clientID offset data0 =
        ⟨(AppendDocument db docID offset data0).2, [.ackNack 1 (offset + data0.length)],
          offset + data0.length, [⟨docID, clientID, offset, data0⟩]⟩) ∧
    (∀ data, lookupDoc db docID = some data → data.length = offset → writePermission = false →
      processAppend writePermission lastEnd db docID clientID offset data0 =
        ⟨(AppendDocument db docID offset []).2, [.ackNack 2 offset], lastEnd, []⟩ ∧
      lookupDoc (processAppend writePermission lastEnd db docID clientID offset data0).db docID =
        some data) ∧
    (∀ data, lookupDoc db docID = some data → data.length ≠ offset →
      processAppend writePermission lastEnd db docID clientID offset data0 =
        ⟨db, [.ackNack 0 data.length], lastEnd, []⟩) ∧
    (lookupDoc db docID = none →
      processAppend writePermission lastEnd db docID clientID offset data0 =
        ⟨db, [.errorReply 1 "does not exist"], lastEnd, []⟩) := by
  cases hl : lookupDoc db docID with
  | none =>
    refine ⟨by simp [hl], by simp [hl], by simp [hl], ?_⟩
    intro _
    cases writePermission <;> simp [processAppend, AppendDocument, hl]
  | some data =>
    by_cases hlen : data.length = offset
    · refine ⟨?_, ?_, ?_, by simp [hl]⟩
      · intro data' hd' _ hw
        obtain rfl : data = data' := by simpa using hd'
        subst hw
        simp [processAppend, AppendDocument, hl, hlen]
      · intro data' hd' _ hw
        obtain rfl : data = data' := by simpa using hd'
        subst hw
        have hset0 := lookupDoc_setDoc_self db docID data (data ++ []) hl
        simp only [List.append_nil] at hset0
        simp [processAppend, AppendDocument, hl, hlen, hset0]
      · intro data' hd' hne
        obtain rfl : data = data' := by simpa using hd'
        exact absurd hlen hne
    · refine ⟨?_, ?_, ?_, by simp [hl]⟩
      · intro data' hd' he _
        obtain rfl : data = data' := by simpa using hd'
        exact absurd he hlen
      · intro data' hd' he _
        obtain rfl : data = data' := by simpa using hd'
        exact absurd he hlen
      · intro data' hd' _
        obtain rfl : data = data' := by simpa using hd'
        cases writePermission <;> simp [processAppend, AppendDocument, hl, hlen]

theorem claim_C2_witness :
    processAppend true 0 [("doc", [1, 2, 3])] "doc" "c1" 3 [9] =
        ⟨(AppendDocument [("doc", [1, 2, 3])] "doc" 3 [9]).2, [.ackNack 1 4], 4,
          [⟨"doc", "c1", 3, [9]⟩]⟩ :=
  (claim_C2 true 0 [("doc", [1, 2, 3])] "doc" "c1" 3 [9]).1 [1, 2, 3]
    (by decide) (by decide) rfl

/-- **C3 (counterexample).** The claim says an append is skipped iff the
recipient's `lastEnd` already covers the requested range
(`lastEnd ≥ offset + len(data)`).  With `lastEnd = 6`, `offset = 5`,
`len(data) = 3` the range is not covered (`6 < 8`), yet the source's test
`offset < lastEnd` skips the append, leaving the queue and `lastEnd`
unchanged. -/
theorem claim_C3_counterexample :
    enqueueAppend ⟨6, 2, []⟩ [0, 0, 0] 5 = ⟨6, 2, []⟩ ∧ ¬ (6 ≥ 5 + [0, 0, 0].length) := by
  exact ⟨rfl, by decide⟩

/-- **C3 (amended).** For every hub fan-out of an append to a recipient: the
append is skipped (not enqueued, state unchanged) iff `offset < lastEnd`;
otherwise it is enqueued and the recipient's `lastEnd` becomes
`offset + len(data)`.  (So a client never receives an append that starts
strictly before its `lastEnd`, but an append that starts below `lastEnd` and
extends past it is dropped entirely.) -/
theorem claim_C3 (c : clientQueue) (data : List Nat) (offset : Nat) :
    (offset < c.lastEnd → enqueueAppend c data offset = c) ∧
    (c.lastEnd ≤ offset →
      (enqueueAppend c data offset).lastEnd = offset + data.length ∧
      (enqueueAppend c data offset).protocolVersion = c.protocolVersion ∧
      (enqueueAppend c data offset).queued = c.queued ++
        [if c.protocolVersion < 3 then encodeAppendV2 [] ⟨appendV2MessageType, 0, offset, data⟩
         else encodeAppend [] ⟨appendMessageType, 0, 0, offset, data⟩]) := by
  constructor
  · intro h
    rw [enqueueAppend, if_pos h]
  · intro h
    rw [enqueueAppend, if_neg (by omega)]
    by_cases hv : c.protocolVersion < 3
    · rw [if_pos hv]
      exact ⟨rfl, rfl, by rw [if_pos hv]⟩
    · rw [if_neg hv]
      exact ⟨rfl, rfl, by rw [if_neg hv]⟩

theorem claim_C3_witness :
    enqueueAppend ⟨6, 2, []⟩ [7] 5 = ⟨6, 2, []⟩ ∧
      (enqueueAppend ⟨0, 2, []⟩ [7] 0).lastEnd = 0 + [7].length :=
  ⟨(claim_C3 ⟨6, 2, []⟩ [7] 5).1 (by decide),
   ((claim_C3 ⟨0, 2, []⟩ [7] 0).2 (by decide)).1⟩

theorem set_one_eq_self (l : List Nat) (h2 : 2 ≤ l.length) (h : l.getD 1 0 = 0) :
    l.set 1 0 = l := by
  match l, h2 with
  | a :: b :: t, _ =>
    simp only [List.getD_cons_succ, List.getD_cons_zero] at h
    subst h
    rfl

/-- **C4 (counterexample).** The claim `reassemble(fragment(encode(m), maxSize))
== encode(m)` fails as soon as the message is actually split: the writer
overwrites byte 1 of the first frame (the message's `More` field) with `1`,
and `readMessage` keeps the first frame whole, so the reassembled bytes differ
from the original encoding at byte 1.  Witnessed by an `ACK_NACK_APPEND`
message (12 encoded bytes) at `maxSize = 3`. -/
theorem claim_C4_counterexample :
    fragThenReassemble (encodeAckNack [] ⟨129, 0, 1, 7⟩) 3 ≠
        some (encodeAckNack [] ⟨129, 0, 1, 7⟩) ∧
      fragThenReassemble (encodeAckNack [] ⟨129, 0, 1, 7⟩) 3 =
        some ((encodeAckNack [] ⟨129, 0, 1, 7⟩).set 1 1) := by
  constructor <;> decide

/-- **C4 (amended).** For every encoded message (at least two bytes) and every
`maxSize ≥ 3`: fragmenting into frames (first frame carries the real type
byte, each subsequent frame is prefixed with `0xFF, more`, `more == 1` on
every frame except the last) and reassembling yields the original encoded
message *with byte 1 — the `More` flag — overwritten by the fragmentation
flag*: `1` if the message was split, `0` otherwise.  In particular, exact
equality `reassemble(fragment(encode(m), maxSize)) == encode(m)` holds iff
the message fits in a single frame (its encoded `More` byte being `0`). -/
theorem claim_C4 (data : List Nat) (maxSize : Nat) (h3 : 3 ≤ maxSize) (h2 : 2 ≤ data.length) :
    fragThenReassemble data maxSize =
        some (data.set 1 (if maxSize < data.length then 1 else 0)) ∧
      (data.getD 1 0 = 0 → data.length ≤ maxSize → fragThenReassemble data maxSize = some data) := by
  refine ⟨sendMessage_reassemble data maxSize h3 h2, ?_⟩
  intro hmore hfit
  rw [sendMessage_reassemble data maxSize h3 h2, if_neg (by omega), set_one_eq_self data h2 hmore]

theorem claim_C4_witness :
    fragThenReassemble [129, 0, 9] 3 = some ([129, 0, 9].set 1 (if 3 < 3 then 1 else 0)) ∧
      fragThenReassemble [129, 0, 9] 3 = some [129, 0, 9] :=
  ⟨(claim_C4 [129, 0, 9] 3 (by decide) (by decide)).1,
   (claim_C4 [129, 0, 9] 3 (by decide) (by decide)).2 (by decide) (by decide)⟩

/-- **C5.** For every session and call
`SetClientKey(docID, sourceID, oldVersion, newVersion, name, value)` (names
unique within a session's client-key list): the update is accepted iff either
the name exists with `version == oldVersion` (it is updated in place, its
owner becoming the source) or the name does not exist and `oldVersion == 0`
(it is appended); on accept a `KeyInformation` update is fanned out to every
other client of the session; the decision is the function's synchronous
result. -/
theorem claim_C5 (sess : session) (sourceID : String) (oldVersion newVersion : Int)
    (name value : List Nat)
    (hu : (sess.keys.map (fun k => k.key.Name)).Nodup) :
    ((SetClientKey sess sourceID oldVersion newVersion name value).found = true ↔
      ((∃ k ∈ sess.keys, k.key.Name = name ∧ k.key.Version = oldVersion) ∨
        ((∀ k ∈ sess.keys, k.key.Name ≠ name) ∧ oldVersion = 0))) ∧
    ((SetClientKey sess sourceID oldVersion newVersion name value).found = true →
      (SetClientKey sess sourceID oldVersion newVersion name value).keys.filter
          (fun k => k.key.Name != name) =
        sess.keys.filter (fun k => k.key.Name != name) ∧
      (SetClientKey sess sourceID oldVersion newVersion name value).keys.filter
          (fun k => k.key.Name == name) = [⟨⟨newVersion, name, value⟩, sourceID⟩]) ∧
    ((SetClientKey sess sourceID oldVersion newVersion name value).found = false →
      (SetClientKey sess sourceID oldVersion newVersion name value).keys = sess.keys) ∧
    ((SetClientKey sess sourceID oldVersion newVersion name value).notified =
      if (SetClientKey sess sourceID oldVersion newVersion name value).found then
        (sess.clients.filter (fun c => c != sourceID)).map
          (fun c => (c, (⟨newVersion, name, value⟩ : Key)))
      else []) := by
  cases hcas : casClientKeys oldVersion ⟨⟨newVersion, name, value⟩, sourceID⟩ sess.keys with
  | updated ks' =>
    simp only [SetClientKey, hcas]
    refine ⟨?_, ?_, ?_, by simp⟩
    · constructor
      · intro _
        exact Or.inl ((casClientKeys_exists_updated_iff oldVersion _ sess.keys hu).mp ⟨ks', hcas⟩)
      · intro _; trivial
    · intro _
      exact casClientKeys_updated_filters oldVersion _ sess.keys hu ks' hcas
    · intro h; exact absurd h (by simp)
  | conflict =>
    obtain ⟨k, hk, hname, hver⟩ := casClientKeys_conflict_keeps oldVersion _ sess.keys hcas
    simp only [SetClientKey, hcas]
    refine ⟨?_, ?_, ?_, by simp⟩
    · constructor
      · intro h; exact absurd h (by simp)
      · rintro (⟨k', hk', hname', hver'⟩ | ⟨hall, _⟩)
        · have : k = k' :=
            List.inj_on_of_nodup_map hu hk hk' (by rw [hname, hname'])
          subst this
          exact absurd hver' hver
        · exact absurd hname (hall k hk)
    · intro h; exact absurd h (by simp)
    · intro _; trivial
  | notFound =>
    have hall := (casClientKeys_eq_notFound_iff oldVersion
      ⟨⟨newVersion, name, value⟩, sourceID⟩ sess.keys).mp hcas
    by_cases h0 : oldVersion = 0
    · simp only [SetClientKey, hcas, if_pos (by simpa using h0 : (oldVersion == 0) = true)]
      refine ⟨?_, ?_, ?_, by simp⟩
      · constructor
        · intro _; exact Or.inr ⟨hall, h0⟩
        · intro _; trivial
      · intro _
        have hnil : sess.keys.filter
            (fun k => k.key.Name == (⟨⟨newVersion, name, value⟩, sourceID⟩ : clientKey).key.Name) = [] := by
          rw [List.filter_eq_nil_iff]
          intro k hk hbk
          exact hall k hk (by simpa using hbk)
        constructor
        · rw [List.filter_append, List.filter_cons_of_neg (by simp), List.filter_nil,
            List.append_nil]
        · rw [List.filter_append, hnil, List.nil_append,
            List.filter_cons_of_pos (by simp), List.filter_nil]
      · intro h; exact absurd h (by simp)
    · simp only [SetClientKey, hcas, if_neg (by simpa using h0 : ¬ (oldVersion == 0) = true)]
      refine ⟨?_, ?_, ?_, by simp⟩
      · constructor
        · intro h; exact absurd h (by simp)
        · rintro (⟨k', hk', hname', _⟩ | ⟨_, hz⟩)
          · exact absurd hname' (hall k' hk')
          · exact absurd hz h0
      · intro h; exact absurd h (by simp)
      · intro _; trivial

theorem claim_C5_witness :
    (SetClientKey ⟨["a", "b"], [⟨⟨1, [99], [7]⟩, "a"⟩]⟩ "a" 1 2 [99] [8]).found = true :=
  (claim_C5 ⟨["a", "b"], [⟨⟨1, [99], [7]⟩, "a"⟩]⟩ "a" 1 2 [99] [8] (by decide)).1.mpr
    (Or.inl ⟨⟨⟨1, [99], [7]⟩, "a"⟩, by simp, rfl, rfl⟩)

/-- **C6.** For every client removal from a session (client ids are unique):
the client is removed from the session's list; every client-key owned by it is
dropped; for each dropped key every remaining client receives exactly one
tombstone `KeyInformation` with empty value and version incremented by one
(one `notifyKeysUpdated` call per remaining client, carrying all tombstones);
if the client list becomes empty the session is deleted and, when a webhook
URL is configured, an `idle-session` webhook with deadline `now + 10` seconds
is enqueued for that document id. -/
theorem claim_C6 (docID : String) (sess : session) (clientID : String)
    (webhookURL : String) (now : Nat)
    (hmem : clientID ∈ sess.clients) (hnd : sess.clients.Nodup) :
    (clientID ∉ (RemoveClient docID sess clientID webhookURL now).clients ∧
      (∀ x, x ≠ clientID →
        (x ∈ (RemoveClient docID sess clientID webhookURL now).clients ↔ x ∈ sess.clients)) ∧
      (RemoveClient docID sess clientID webhookURL now).clients.length + 1 =
        sess.clients.length) ∧
    ((RemoveClient docID sess clientID webhookURL now).keys =
      sess.keys.filter (fun k => k.owner != clientID)) ∧
    ((sess.keys.filter (fun k => k.owner == clientID)).map
        (fun k => Key.mk (k.key.Version + 1) k.key.Name []) ≠ [] →
      (RemoveClient docID sess clientID webhookURL now).notified =
        (RemoveClient docID sess clientID webhookURL now).clients.map
          (fun c => (c, (sess.keys.filter (fun k => k.owner == clientID)).map
            (fun k => Key.mk (k.key.Version + 1) k.key.Name [])))) ∧
    ((sess.keys.filter (fun k => k.owner == clientID)).map
        (fun k => Key.mk (k.key.Version + 1) k.key.Name []) = [] →
      (RemoveClient docID sess clientID webhookURL now).notified = []) ∧
    ((RemoveClient docID sess clientID webhookURL now).sessionDeleted = true ↔
      (RemoveClient docID sess clientID webhookURL now).clients = []) ∧
    ((RemoveClient docID sess clientID webhookURL now).clients = [] → webhookURL ≠ "" →
      (RemoveClient docID sess clientID webhookURL now).webhook =
        some ⟨"idle-session", docID, now + 10⟩) ∧
    ((RemoveClient docID sess clientID webhookURL now).clients ≠ [] ∨ webhookURL = "" →
      (RemoveClient docID sess clientID webhookURL now).webhook = none) := by
  obtain ⟨i, hidx⟩ : ∃ i, sess.clients.findIdx? (fun c => c == clientID) = some i := by
    cases hfi : sess.clients.findIdx? (fun c => c == clientID) with
    | some i => exact ⟨i, rfl⟩
    | none =>
      have := List.findIdx?_eq_none_iff.mp hfi clientID hmem
      simp at this
  obtain ⟨hi, hpi, -⟩ := List.findIdx?_eq_some_iff_getElem.mp hidx
  have hgetd : sess.clients.getD i "" = clientID := by
    rw [List.getD_eq_getElem _ _ hi]
    simpa using hpi
  have hperm : List.Perm
      (((sess.clients.set i (sess.clients.getD (sess.clients.length - 1) "")).take
        (sess.clients.length - 1)) ++ [clientID]) sess.clients := by
    have h := perm_set_take sess.clients i hi
    rwa [hgetd] at h
  have hclients : (RemoveClient docID sess clientID webhookURL now).clients =
      (sess.clients.set i (sess.clients.getD (sess.clients.length - 1) "")).take
        (sess.clients.length - 1) := by
    simp only [RemoveClient, hidx]
  have hnotmem : clientID ∉ (RemoveClient docID sess clientID webhookURL now).clients := by
    rw [hclients]
    have hnd2 := hperm.nodup_iff.mpr hnd
    have hnd3 := (List.perm_append_singleton clientID _).nodup_iff.mp hnd2
    exact (List.nodup_cons.mp hnd3).1
  refine ⟨⟨hnotmem, ?_, ?_⟩, rfl, ?_, ?_, ?_, ?_, ?_⟩
  · intro x hx
    rw [hclients]
    constructor
    · intro hmem'
      exact hperm.mem_iff.mp (List.mem_append.mpr (Or.inl hmem'))
    · intro hmem'
      rcases List.mem_append.mp (hperm.mem_iff.mpr hmem') with h | h
      · exact h
      · exact absurd (by simpa using h) hx
  · rw [hclients]
    have := hperm.length_eq
    simpa using this
  · intro hne
    simp only [RemoveClient, hidx]
    rw [if_neg (by simpa [List.isEmpty_iff] using hne)]
  · intro hnil
    simp only [RemoveClient, hidx]
    rw [if_pos (by simpa [List.isEmpty_iff] using hnil)]
  · rw [hclients]
    simp only [RemoveClient, hidx, Option.isSome_some, Bool.true_and]
    exact List.isEmpty_iff
  · intro hempty hurl
    rw [hclients] at hempty
    simp only [RemoveClient, hidx, Option.isSome_some, Bool.true_and]
    rw [if_pos]
    simp only [Bool.and_eq_true, List.isEmpty_iff, hempty, bne_iff_ne]
    exact ⟨trivial, hurl⟩
  · intro hcase
    simp only [RemoveClient, hidx, Option.isSome_some, Bool.true_and]
    rw [if_neg]
    simp only [Bool.and_eq_true, List.isEmpty_iff, bne_iff_ne]
    rcases hcase with h | h
    · rw [hclients] at h
      intro hcontra
      exact h hcontra.1
    · intro hcontra
      exact hcontra.2 h

theorem claim_C6_witness :
    "c1" ∉ (RemoveClient "doc" ⟨["c1", "c2"], [⟨⟨1, [99], [7]⟩, "c1"⟩]⟩ "c1" "http" 5).clients ∧
      (RemoveClient "doc" ⟨["c1", "c2"], [⟨⟨1, [99], [7]⟩, "c1"⟩]⟩ "c1" "http" 5).notified =
        (RemoveClient "doc" ⟨["c1", "c2"], [⟨⟨1, [99], [7]⟩, "c1"⟩]⟩ "c1" "http" 5).clients.map
          (fun c => (c, [Key.mk 2 [99] []])) :=
  ⟨((claim_C6 "doc" ⟨["c1", "c2"], [⟨⟨1, [99], [7]⟩, "c1"⟩]⟩ "c1" "http" 5 (by simp)
      (by decide)).1).1,
   (claim_C6 "doc" ⟨["c1", "c2"], [⟨⟨1, [99], [7]⟩, "c1"⟩]⟩ "c1" "http" 5 (by simp)
      (by decide)).2.2.1 (by decide)⟩

/-- **C7.** For every INIT whose token resolves to permissions `p`: the
handshake is rejected with access-denied if `p` lacks `'r'`, or if the
creation mode is `AlwaysCreate` and `p` lacks `'w'`; if the creation mode is
`PossiblyCreate` and `p` lacks `'w'`, the mode is degraded to `NeverCreate`
and a subsequently missing document produces the access-denied error code
(rather than does-not-exist) — and the document is not created. -/
theorem claim_C7 (permissions : List Char) (mode : Nat) (db : DocStore) (docID : String)
    (reqOffset : Nat) (initialData : List Nat) :
    (permissions.contains 'r' = false →
      processInitAfterToken permissions mode db docID reqOffset initialData =
        .rejected errorAccessDenied db) ∧
    (permissions.contains 'w' = false → mode = AlwaysCreate →
      processInitAfterToken permissions mode db docID reqOffset initialData =
        .rejected errorAccessDenied db) ∧
    (permissions.contains 'r' = true → permissions.contains 'w' = false →
      mode = PossiblyCreate → lookupDoc db docID = none →
      processInitAfterToken permissions mode db docID reqOffset initialData =
        .rejected errorAccessDenied db) := by
  refine ⟨?_, ?_, ?_⟩
  · intro hr
    have hr' : 'r' ∉ permissions := by simpa using hr
    rw [processInitAfterToken, if_pos (by simp [hr'])]
  · intro hw hm
    subst hm
    have hw' : 'w' ∉ permissions := by simpa using hw
    rw [processInitAfterToken, if_pos (by simp [hw'])]
  · intro hr hw hm hl
    subst hm
    have hr' : 'r' ∈ permissions := by simpa using hr
    have hw' : 'w' ∉ permissions := by simpa using hw
    have hgd : GetDocument db docID 1 initialData = (GetDocResult.missing, db) := by
      simp [GetDocument, hl, NeverCreate]
    simp [processInitAfterToken, hr', hw', PossiblyCreate, AlwaysCreate, NeverCreate,
      errorAccessDenied, errorDoesNotExist, hgd]

theorem claim_C7_witness :
    processInitAfterToken ['r'] PossiblyCreate [] "doc" 0 [9] = .rejected errorAccessDenied [] :=
  (claim_C7 ['r'] PossiblyCreate [] "doc" 0 [9]).2.2 (by decide) (by decide) rfl (by decide)

/-- **C8.** For every SET_KEY message: if the name begins with `admin:` and
the caller lacks the `'a'` permission the operation fails and a NACK is sent;
client-lifetime requests (lifetime 0) are routed to the hub's `SetClientKey`;
session-lifetime requests call `SetDocumentKey` and, on success, the hub's
`SetSessionKey`; an `ACK_NACK_SETKEY(accepted, requestId)` reply is sent in
every case except when the request was accepted and
`oldVersion == newVersion`. -/
theorem claim_C8 (adminPermission : Bool) (sess : session) (docKeys : List Key)
    (sourceID : String) (m : setKeyMessage) :
    (adminPrefixBytes.isPrefixOf m.Name = true → adminPermission = false →
      processSetKey adminPermission sess docKeys sourceID m =
        ⟨false, some (false, m.RequestID), sess, docKeys, none, []⟩) ∧
    (¬ (adminPrefixBytes.isPrefixOf m.Name = true ∧ adminPermission = false) →
      m.Lifetime = 0 →
      processSetKey adminPermission sess docKeys sourceID m =
        ⟨(SetClientKey sess sourceID (m.OldVersion : Int) (m.NewVersion : Int)
            m.Name m.Value).found,
          (if !(SetClientKey sess sourceID (m.OldVersion : Int) (m.NewVersion : Int)
                m.Name m.Value).found || m.OldVersion != m.NewVersion
            then some ((SetClientKey sess sourceID (m.OldVersion : Int) (m.NewVersion : Int)
                m.Name m.Value).found, m.RequestID)
            else none),
          ⟨sess.clients, (SetClientKey sess sourceID (m.OldVersion : Int) (m.NewVersion : Int)
            m.Name m.Value).keys⟩, docKeys, none,
          (SetClientKey sess sourceID (m.OldVersion : Int) (m.NewVersion : Int)
            m.Name m.Value).notified⟩) ∧
    (¬ (adminPrefixBytes.isPrefixOf m.Name = true ∧ adminPermission = false) →
      m.Lifetime ≠ 0 →
      (∀ ks', SetDocumentKey docKeys (m.OldVersion : Int)
          ⟨(m.NewVersion : Int), m.Name, m.Value⟩ = some ks' →
        processSetKey adminPermission sess docKeys sourceID m =
          ⟨true, (if m.OldVersion != m.NewVersion then some (true, m.RequestID) else none),
            sess, ks', some ⟨(m.NewVersion : Int), m.Name, m.Value⟩, []⟩) ∧
      (SetDocumentKey docKeys (m.OldVersion : Int)
          ⟨(m.NewVersion : Int), m.Name, m.Value⟩ = none →
        processSetKey adminPermission sess docKeys sourceID m =
          ⟨false, some (false, m.RequestID), sess, docKeys, none, []⟩)) ∧
    ((processSetKey adminPermission sess docKeys sourceID m).reply = none ↔
      ((processSetKey adminPermission sess docKeys sourceID m).ack = true ∧
        m.OldVersion = m.NewVersion)) := by
  by_cases hg : (adminPrefixBytes.isPrefixOf m.Name && !adminPermission) = true
  · have hp : adminPrefixBytes.isPrefixOf m.Name = true := by
      simpa using (Bool.and_eq_true_iff.mp hg).1
    have ha : adminPermission = false := by
      have := (Bool.and_eq_true_iff.mp hg).2
      simpa using this
    refine ⟨fun _ _ => ?_, fun hng _ => absurd ⟨hp, ha⟩ hng,
      fun hng _ => absurd ⟨hp, ha⟩ hng, ?_⟩
    · rw [processSetKey, if_pos hg]
    · rw [processSetKey, if_pos hg]
      simp
  · have hng : ¬ (adminPrefixBytes.isPrefixOf m.Name = true ∧ adminPermission = false) := by
      rintro ⟨hp, ha⟩
      exact hg (by simp [hp, ha])
    by_cases hlt : m.Lifetime = 0
    · have hmain : processSetKey adminPermission sess docKeys sourceID m =
          ⟨(SetClientKey sess sourceID (m.OldVersion : Int) (m.NewVersion : Int)
              m.Name m.Value).found,
            (if !(SetClientKey sess sourceID (m.OldVersion : Int) (m.NewVersion : Int)
                  m.Name m.Value).found || m.OldVersion != m.NewVersion
              then some ((SetClientKey sess sourceID (m.OldVersion : Int) (m.NewVersion : Int)
                  m.Name m.Value).found, m.RequestID)
              else none),
            ⟨sess.clients, (SetClientKey sess sourceID (m.OldVersion : Int) (m.NewVersion : Int)
              m.Name m.Value).keys⟩, docKeys, none,
            (SetClientKey sess sourceID (m.OldVersion : Int) (m.NewVersion : Int)
              m.Name m.Value).notified⟩ := by
        rw [processSetKey, if_neg hg, if_pos (by simp [hlt])]
      refine ⟨fun hp ha => absurd ⟨hp, ha⟩ hng, fun _ _ => hmain,
        fun _ hne => absurd hlt hne, ?_⟩
      rw [hmain]
      by_cases hc : (!(SetClientKey sess sourceID (m.OldVersion : Int) (m.NewVersion : Int)
          m.Name m.Value).found || m.OldVersion != m.NewVersion) = true
      · rw [if_pos hc]
        simp only [Bool.or_eq_true, Bool.not_eq_true', bne_iff_ne] at hc
        simp only [reduceCtorEq, false_iff, not_and]
        intro hf he
        rcases hc with h | h
        · rw [hf] at h; exact Bool.noConfusion h
        · exact h he
      · rw [if_neg hc]
        simp only [Bool.or_eq_true, Bool.not_eq_true', bne_iff_ne, not_or, not_not,
          Bool.not_eq_false] at hc
        exact ⟨fun _ => ⟨hc.1, hc.2⟩, fun _ => rfl⟩
    · have hlt' : (m.Lifetime == 0) = false := by simpa using hlt
      cases hsd : SetDocumentKey docKeys (m.OldVersion : Int)
          ⟨(m.NewVersion : Int), m.Name, m.Value⟩ with
      | some ks' =>
        have hmain : processSetKey adminPermission sess docKeys sourceID m =
            ⟨true, (if m.OldVersion != m.NewVersion then some (true, m.RequestID) else none),
              sess, ks', some ⟨(m.NewVersion : Int), m.Name, m.Value⟩, []⟩ := by
          rw [processSetKey, if_neg hg, if_neg (by simp [hlt'])]
          simp only [hsd]
        refine ⟨fun hp ha => absurd ⟨hp, ha⟩ hng, fun _ hz => absurd hz hlt,
          fun _ _ => ⟨fun ks'' hks'' => ?_, fun hn => ?_⟩, ?_⟩
        · obtain rfl : ks' = ks'' := by simpa using hks''
          exact hmain
        · exact Option.noConfusion hn
        · rw [hmain]
          by_cases he : m.OldVersion = m.NewVersion
          · rw [if_neg (by simpa using he)]
            simp [he]
          · rw [if_pos (by simpa using he)]
            simp [he]
      | none =>
        have hmain : processSetKey adminPermission sess docKeys sourceID m =
            ⟨false, some (false, m.RequestID), sess, docKeys, none, []⟩ := by
          rw [processSetKey, if_neg hg, if_neg (by simp [hlt'])]
          simp only [hsd]
        refine ⟨fun hp ha => absurd ⟨hp, ha⟩ hng, fun _ hz => absurd hz hlt,
          fun _ _ => ⟨fun ks'' hks'' => ?_, fun _ => hmain⟩, ?_⟩
        · exact Option.noConfusion hks''
        · rw [hmain]
          simp

theorem claim_C8_witness :
    processSetKey false ⟨["a"], []⟩ [] "a"
        ⟨3, 0, 7, 1, 0, 0, 6, adminPrefixBytes ++ [120], 1, [5]⟩ =
      ⟨false, some (false, 7), ⟨["a"], []⟩, [], none, []⟩ :=
  (claim_C8 false ⟨["a"], []⟩ [] "a"
      ⟨3, 0, 7, 1, 0, 0, 6, adminPrefixBytes ++ [120], 1, [5]⟩).1 (by decide) rfl

/-- **C9 (counterexample).** `decode(encode(m)) == m` fails for the ERROR
message even though its only explicit fields are in range and it has no
length field to mismatch: the generic decoder reads the `Description` string
using the last decoded unsigned value — the `ErrorCode` — as its length.
For `ERROR(code 0, "x")` the decoded description is empty. -/
theorem claim_C9_counterexample :
    decodeError (encodeError [] ⟨128, 0, 0, [120]⟩) ≠ some ⟨128, 0, 0, [120]⟩ ∧
      decodeError (encodeError [] ⟨128, 0, 0, [120]⟩) = some ⟨128, 0, 0, []⟩ := by
  constructor <;> decide

/-- **C9 (amended).** For every message value of every wire message type
(INIT in both protocol versions, APPEND_V2, APPEND_V3, SET_KEY, BROADCAST,
ERROR, ACK_NACK_APPEND, ACK_NACK_SETKEY, KEY_INFORMATION), decoding its
encoding returns the same message, provided the message's explicit length
fields equal the lengths of the corresponding string fields and every
unsigned field fits its wire width — and, for ERROR only, provided
additionally that `ErrorCode` equals the description length, because the
decoder reuses the last-read integer (`ErrorCode`) as the string size. -/
theorem claim_C9 :
    (∀ s : initMessageV2, s.MessageType < 256 → s.More < 256 → s.ProtocolVersion < 65536 →
      s.MaxMessageSize < 4294967296 → s.CreationMode < 256 →
      s.Offset < 18446744073709551616 → s.DocIDLength < 256 →
      s.DocIDLength = s.DocID.length → decodeInitV2 (encodeInitV2 [] s) = some s) ∧
    (∀ s : initMessage, s.MessageType < 256 → s.More < 256 → s.ProtocolVersion < 65536 →
      s.MaxMessageSize < 4294967296 → s.CreationMode < 256 → s.Generation < 4294967296 →
      s.Offset < 18446744073709551616 → s.DocIDLength < 4294967296 →
      s.DocIDLength = s.DocID.length → decodeInit (encodeInit [] s) = some s) ∧
    (∀ s : appendMessageV2, s.MessageType < 256 → s.More < 256 →
      s.Offset < 18446744073709551616 → decodeAppendV2 (encodeAppendV2 [] s) = some s) ∧
    (∀ s : appendMessage, s.MessageType < 256 → s.More < 256 → s.Generation < 4294967296 →
      s.Offset < 18446744073709551616 → decodeAppend (encodeAppend [] s) = some s) ∧
    (∀ s : setKeyMessage, s.MessageType < 256 → s.More < 256 → s.RequestID < 65536 →
      s.Lifetime < 256 → s.OldVersion < 4294967296 → s.NewVersion < 4294967296 →
      s.NameLength < 4294967296 → s.ValueLength < 4294967296 →
      s.NameLength = s.Name.length → s.ValueLength = s.Value.length →
      decodeSetKey (encodeSetKey [] s) = some s) ∧
    (∀ s : errorMessage, s.MessageType < 256 → s.More < 256 → s.ErrorCode < 65536 →
      s.ErrorCode = s.Description.length → decodeError (encodeError [] s) = some s) ∧
    (∀ s : setKeyAckNackMessage, s.MessageType < 256 → s.More < 256 → s.Ack < 65536 →
      s.RequestID < 65536 → decodeSetKeyAckNack (encodeSetKeyAckNack [] s) = some s) ∧
    (∀ s : ackNackMessage, s.MessageType < 256 → s.More < 256 → s.Ack < 65536 →
      s.Offset < 18446744073709551616 → decodeAckNack (encodeAckNack [] s) = some s) ∧
    (∀ s : keyInformationMessage, s.MessageType < 256 → s.More < 256 →
      (∀ k ∈ s.Keys, keyInfoGood k) →
      decodeKeyInformation (encodeKeyInformation [] s) = some s) ∧
    (∀ s : broadcastMessage, s.MessageType < 256 → s.More < 256 →
      s.DataLength < 4294967296 → decodeBroadcast (encodeBroadcast [] s) = some s) :=
  ⟨decodeInitV2_encode, decodeInit_encode, decodeAppendV2_encode, decodeAppend_encode,
    decodeSetKey_encode, decodeError_encode, decodeSetKeyAckNack_encode, decodeAckNack_encode,
    decodeKeyInformation_encode, decodeBroadcast_encode⟩

theorem claim_C9_witness :
    decodeSetKey (encodeSetKey [] ⟨3, 0, 7, 0, 0, 1, 1, [99], 1, [111]⟩) =
        some ⟨3, 0, 7, 0, 0, 1, 1, [99], 1, [111]⟩ ∧
      decodeError (encodeError [] ⟨128, 0, 1, [120]⟩) = some ⟨128, 0, 1, [120]⟩ :=
  ⟨claim_C9.2.2.2.2.1 ⟨3, 0, 7, 0, 0, 1, 1, [99], 1, [111]⟩ (by decide) (by decide)
      (by decide) (by decide) (by decide) (by decide) (by decide) (by decide) rfl rfl,
   claim_C9.2.2.2.2.2.1 ⟨128, 0, 1, [120]⟩ (by decide) (by decide) (by decide) rfl⟩

/-- **C10 (counterexample).** The claim says that for `maxSize ∈ {1, 2}` the
continuation loop "makes no progress on any message longer than maxSize".
For `maxSize = 1` there is no non-progressing iteration at all: the first
continuation iteration computes `send = maxSize - 2 = -1` and the slice
`data[:send]` panics, aborting the writer, as evaluated below on a 4-byte
message. -/
theorem claim_C10_counterexample :
    sendLoopStep 1 [1, 9, 9] = none ∧ sendMessage [2, 0, 9, 9] 1 4 = .panicked := by
  constructor <;> decide

/-- **C10 (amended).** The writer's fragmentation routine terminates for
every message only under the precondition `maxSize ≥ 3`: each full
continuation frame carries `maxSize - 2` payload bytes, every iteration
strictly shrinks the remaining data, and fuel equal to the message length
suffices.  The client-supplied `maxMessageSize` from INIT is installed as
`maxSize` unvalidated whenever non-zero.  For `maxSize ∈ {1, 2}` the routine
never completes on any message longer than `maxSize`: with `maxSize = 2` the
loop spins emitting empty continuation frames, with `maxSize = 1` it panics
on the negative slice bound. -/
theorem claim_C10 :
    (∀ (data : List Nat) (maxSize : Nat), 3 ≤ maxSize → 2 ≤ data.length →
      ∃ fs, sendMessage data maxSize data.length = .frames fs) ∧
    (∀ (d : List Nat) (maxSize : Nat), 3 ≤ maxSize → d ≠ [] →
      ∃ f rest, sendLoopStep maxSize d = some (f, rest) ∧ rest.length < d.length) ∧
    (∀ (d : List Nat) (maxSize : Nat), 3 ≤ maxSize → maxSize - 2 < d.length →
      sendLoopStep maxSize d =
        some (continuationMessageType :: 1 :: d.take (maxSize - 2), d.drop (maxSize - 2)) ∧
      (d.take (maxSize - 2)).length = maxSize - 2) ∧
    (∀ current v : Nat, v ≠ 0 → installMaxSize current v = v) ∧
    (∀ (data : List Nat) (maxSize fuel : Nat), (maxSize = 1 ∨ maxSize = 2) →
      maxSize < data.length → ∀ fs, sendMessage data maxSize fuel ≠ .frames fs) := by
  refine ⟨?_, ?_, ?_, ?_, sendMessage_small_never_frames⟩
  · intro data maxSize h3 h2
    have h := sendMessage_reassemble data maxSize h3 h2
    rw [fragThenReassemble] at h
    cases hsm : sendMessage data maxSize data.length with
    | frames fs => exact ⟨fs, rfl⟩
    | panicked => rw [hsm] at h; exact absurd h (by simp)
    | spun => rw [hsm] at h; exact absurd h (by simp)
  · intro d maxSize h3 hd
    have hstep := sendLoopStep_of_big maxSize h3 d
    by_cases hc : maxSize - 2 < d.length
    · rw [if_pos hc] at hstep
      refine ⟨_, _, hstep, ?_⟩
      rw [List.length_drop]
      omega
    · rw [if_neg hc] at hstep
      refine ⟨_, _, hstep, ?_⟩
      simpa using List.length_pos.mpr hd
  · intro d maxSize h3 hc
    have hstep := sendLoopStep_of_big maxSize h3 d
    rw [if_pos hc] at hstep
    refine ⟨hstep, ?_⟩
    rw [List.length_take]
    omega
  · intro current v hv
    rw [installMaxSize, if_pos hv]

theorem claim_C10_witness :
    (∃ fs, sendMessage [1, 0, 9] 3 3 = .frames fs) ∧ installMaxSize 102400 2 = 2 :=
  ⟨claim_C10.1 [1, 0, 9] 3 (by decide) (by decide),
   claim_C10.2.2.2.1 102400 2 (by decide)⟩

end Zwibserve
